import Mathlib

/-!
Shallow embedding of the replica-repair engine of this repository
(the "guardian keeper"), translated from the two most complete source
variants:

* src/.guardian-shell/guardian-keeper-spacex.rs  (namespace SpacexKeeper)
* src/.guardian-shell/guardian-keeper-toyota.rs  (namespace ToyotaKeeper)

Bytes are modelled as natural numbers below 256 inside a List Nat;
u32 arithmetic is Nat arithmetic (all operations used — xor of values
below 2^32, shift right, division by 2 — stay below 2^32, so no
explicit truncation is needed).  File-system state is explicit: each
survival location is a Loc record holding the current content
(Option of bytes, none = read error / missing file) together with two
static environment facts — whether an atomic write at that path
succeeds (writable) and whether the parent directory exists or can be
created (parentOk).  HashMap iteration order, which the source leaves
to std, is modelled as insertion order.
-/

namespace Keeper

/-- A byte string: list of naturals (each intended below 256). -/
abbrev Bytes := List Nat

/-- MEMORY_CANARY constant (both variants). -/
def MEMORY_CANARY : Nat := 0xFEEDFACEDEADBEEF

/-- MAX_REPAIR_ATTEMPTS (both variants): circuit-breaker threshold. -/
def MAX_REPAIR_ATTEMPTS : Nat := 3

/-- CONSENSUS_THRESHOLD (toyota variant): quorum. -/
def CONSENSUS_THRESHOLD : Nat := 3

/-- REPAIR_LIMIT (toyota variant): Jidoka ceiling on cumulative repairs. -/
def REPAIR_LIMIT : Nat := 10

/-- Strict let: pass n to f after reducing n to a literal.  Identity
(lemma forceEval_eq); it only keeps concrete instances of the
checksum loops evaluable in bounded recursion depth. -/
def forceEval {α : Sort u} (n : Nat) (f : Nat → α) : α :=
  match n with
  | 0 => f 0
  | k + 1 => f (k + 1)

/-- One round of the inner CRC loop: shift right once, xoring the
polynomial when the low bit is set (crc = (crc >> 1) ^ 0xEDB88320). -/
def crc32Round (crc : Nat) : Nat :=
  if crc % 2 = 1 then Nat.xor (crc / 2) 0xEDB88320 else crc / 2

/-- Eight rounds, as the source's inner for-loop over 0..8. -/
def crc32Byte (crc b : Nat) : Nat :=
  crc32Round (crc32Round (crc32Round (crc32Round
    (crc32Round (crc32Round (crc32Round (crc32Round (Nat.xor crc b))))))))

/-- The outer loop of fn crc32: the crc accumulator updated with each
byte in order. -/
def crcFold : Nat → Bytes → Nat
  | crc, [] => crc
  | crc, b :: t => forceEval (crc32Byte crc b) fun c => crcFold c t

/-- fn crc32(data: &[u8]) -> u32 — table-free bit-reversed CRC-32 with
initial and final complement (xor with 0xFFFFFFFF). -/
def crc32 (data : Bytes) : Nat :=
  Nat.xor (crcFold 0xFFFFFFFF data) 0xFFFFFFFF

/-- The loop of fn fletcher32: dual accumulators reduced mod 65535 at
every byte.  The source iterates chunks of 360 bytes but updates the
accumulators per byte, so the chunking does not change the value; we
fold over the bytes in order exactly as the nested loops do. -/
def fletchFold : Nat → Nat → Bytes → Nat × Nat
  | s1, s2, [] => (s1, s2)
  | s1, s2, b :: t =>
    forceEval ((s1 + b) % 65535) fun t1 =>
      forceEval ((s2 + t1) % 65535) fun t2 => fletchFold t1 t2 t

/-- fn fletcher32(data: &[u8]) -> u32 — (sum2 << 16) | sum1; since
sum1 < 65535 < 2^16 the bitwise or is sum2 * 2^16 + sum1. -/
def fletcher32 (data : Bytes) : Nat :=
  let s := fletchFold 0 0 data
  s.2 * 65536 + s.1

/-- sig.isPrefixOf-style check: does data start with sig? -/
def startsWith : Bytes → Bytes → Bool
  | [], _ => true
  | _ :: _, [] => false
  | a :: s, b :: t => a == b && startsWith s t

/-- data.windows(sig.len()).any(|w| w == sig): does sig occur as a
contiguous slice of data? -/
def containsSlice (sig : Bytes) : Bytes → Bool
  | [] => startsWith sig []
  | b :: t => startsWith sig (b :: t) || containsSlice sig t

/-- b"\x7fELF" -/
def elfMagic : Bytes := [0x7f, 0x45, 0x4c, 0x46]

/-- b"#!" -/
def shebangMagic : Bytes := [0x23, 0x21]

/-- GUARDIAN_SIGNATURE of the spacex variant: b"GUARD_FIXED_V1\0". -/
def GUARDIAN_SIGNATURE_SPACEX : Bytes :=
  [71, 85, 65, 82, 68, 95, 70, 73, 88, 69, 68, 95, 86, 49, 0]

/-- GUARDIAN_SIGNATURE of the toyota variant: b"GUARD_TOYOTA_V1\0". -/
def GUARDIAN_SIGNATURE_TOYOTA : Bytes :=
  [71, 85, 65, 82, 68, 95, 84, 79, 89, 79, 84, 65, 95, 86, 49, 0]

/-- fn validate_binary(data) (spacex): reject below 1024 bytes; an
ELF-headed blob is accepted only if the signature occurs somewhere in
it; a shebang blob is accepted unconditionally. -/
def validate_binary (data : Bytes) : Bool :=
  if data.length < 1024 then false
  else if 4 ≤ data.length && startsWith elfMagic data then
    if containsSlice GUARDIAN_SIGNATURE_SPACEX data then true
    else 2 ≤ data.length && startsWith shebangMagic data
  else 2 ≤ data.length && startsWith shebangMagic data

/-- fn validate_binary_redundant(data) (toyota): reject below 1024
bytes; accept iff (ELF header or shebang) and both checksums are
nonzero.  The source also computes has_signature from
GUARDIAN_SIGNATURE but never uses it in the returned expression. -/
def validate_binary_redundant (data : Bytes) : Bool :=
  if data.length < 1024 then false
  else
    let hasElf := 4 ≤ data.length && startsWith elfMagic data
    let hasShebang := 2 ≤ data.length && startsWith shebangMagic data
    (hasElf || hasShebang) && (crc32 data != 0 && fletcher32 data != 0)

/-- Error kinds of a scan-and-repair cycle.  The source reports them
as strings and branches with e.contains("Memory corruption") /
e.contains("Repair limit"); the enum constructor stands for the
string each site produces, so those substring tests become
constructor tests. -/
inductive CycleErr where
  | memoryCorruption : CycleErr
  | lowDisk : Nat → CycleErr
  | repairLimit : Nat → CycleErr
  | noValidSource : CycleErr
  | noConsensus : CycleErr
deriving DecidableEq

instance instDecEqExcept {ε : Type u} {α : Type v} [DecidableEq ε] [DecidableEq α] :
    DecidableEq (Except ε α) := fun a b =>
  match a, b with
  | .error e, .error f =>
    if h : e = f then .isTrue (by rw [h]) else .isFalse (by intro c; injection c; contradiction)
  | .error _, .ok _ => .isFalse (by intro c; exact Except.noConfusion c)
  | .ok _, .error _ => .isFalse (by intro c; exact Except.noConfusion c)
  | .ok x, .ok y =>
    if h : x = y then .isTrue (by rw [h]) else .isFalse (by intro c; injection c; contradiction)

/-- One survival location: its current content (none = fs::read
fails: missing/unreadable) plus two static environment facts: whether
the atomic write protocol succeeds there (writable) and whether the
parent directory exists or create_dir_all succeeds (parentOk). -/
structure Loc where
  content : Option Bytes
  writable : Bool
  parentOk : Bool
deriving DecidableEq

/-- Process state: the survival locations, the CANARY atomic, the
free-disk MB that df reports (none = df failed or unparsable), the
REPAIR_COUNTER atomic and the KEEPER_STATE atomic (0 Normal,
1 Caution, 2 Warning, 3 Critical; the spacex variant has no
KEEPER_STATE static and never touches this field). -/
structure GuardianState where
  locs : List Loc
  canary : Nat
  diskAvail : Option Nat
  repairCounter : Nat
  keeperState : Nat
deriving DecidableEq

/-- The free-disk branch of preflight_check: the reported MB when it
is below the threshold, none otherwise (also when df's output is
unavailable, in which case the source skips the check). -/
def diskLow (m : GuardianState) (threshold : Nat) : Option Nat :=
  match m.diskAvail with
  | some a => if a < threshold then some a else none
  | none => none

/-- needs_repair in check_and_repair (both variants): a location
needs repair when it cannot be read, or its CRC differs from the
consensus CRC, or it fails validation. -/
def needs_repair (validate : Bytes → Bool) (srcCrc : Nat) (content : Option Bytes) : Bool :=
  match content with
  | some d => crc32 d != srcCrc || !validate d
  | none => true

/-- The body of the per-location repair loop of check_and_repair
(identical in both variants apart from the validator): circuit
breaker first, then parent-directory creation, then the needs_repair
check, then the atomic write.  Returns the location's new state, its
new ledger entry (the HashMap holds no entry for a location exactly
when the modelled entry is 0: get(..).unwrap_or(0) and remove(..)
both collapse to 0), and the repaired/failed increments. -/
def locStep (validate : Bytes → Bool) (src : Bytes) (srcCrc : Nat)
    (loc : Loc) (a : Nat) : Loc × Nat × Nat × Nat :=
  if MAX_REPAIR_ATTEMPTS ≤ a then (loc, a, 0, 0)
  else if !loc.parentOk then (loc, a, 0, 0)
  else if needs_repair validate srcCrc loc.content then
    if loc.writable then ({ loc with content := some src }, 0, 1, 0)
    else (loc, a + 1, 0, 1)
  else (loc, a, 0, 0)

/-- The per-location repair loop over all survival locations, with
the repair-attempt ledger carried positionally (entry i of the ledger
list is the HashMap entry for location i's path).  Returns (new
locations, new ledger, repaired count, failed count). -/
def repairLoop (validate : Bytes → Bool) (src : Bytes) (srcCrc : Nat) :
    List Loc → List Nat → List Loc × List Nat × Nat × Nat
  | [], _ => ([], [], 0, 0)
  | loc :: rest, ledger =>
    let s := locStep validate src srcCrc loc (ledger.headD 0)
    let r := repairLoop validate src srcCrc rest ledger.tail
    (s.1 :: r.1, s.2.1 :: r.2.1, s.2.2.1 + r.2.2.1, s.2.2.2 + r.2.2.2)

end Keeper

namespace ToyotaKeeper

open Keeper

/-- The value of the candidates HashMap at one CRC key: the first
content inserted under that key, the Vec of Fletcher digests pushed
for every member, and the support count. -/
structure Cand where
  key : Nat
  data : Bytes
  fls : List Nat
  count : Nat
deriving DecidableEq

/-- candidates.entry(crc).or_insert((data, Vec::new(), 0)); push the
fletcher; increment the count.  The HashMap is modelled as an
association list in insertion order. -/
def insertCand (c : Nat) (d : Bytes) (fl : Nat) : List Cand → List Cand
  | [] => [⟨c, d, [fl], 1⟩]
  | e :: rest =>
    if e.key = c then { e with fls := e.fls ++ [fl], count := e.count + 1 } :: rest
    else e :: insertCand c d fl rest

/-- The scan phase of find_source_binary (toyota): read every
location (the read outcomes are the input list), keep the contents
that pass validate_binary_redundant, group them by CRC32. -/
def scanToyota (reads : List (Option Bytes)) : List Cand :=
  reads.foldl
    (fun cs r =>
      match r with
      | some d =>
        if validate_binary_redundant d then insertCand (crc32 d) d (fletcher32 d) cs else cs
      | none => cs)
    []

/-- fletchers.windows(2).all(|w| w[0] == w[1]): adjacent pairs equal. -/
def chainEq : List Nat → Bool
  | [] => true
  | [_] => true
  | a :: b :: t => a == b && chainEq (b :: t)

/-- The selection loop of find_source_binary (toyota): walk the
candidate groups (HashMap iteration modelled as insertion order),
keeping the first group that is Fletcher-consistent, meets
CONSENSUS_THRESHOLD and strictly exceeds the best count so far. -/
def selectBest : List Cand → Option (Bytes × Nat × Nat) → Nat → Option (Bytes × Nat × Nat)
  | [], best, _ => best
  | e :: rest, best, bc =>
    if chainEq e.fls && decide (CONSENSUS_THRESHOLD ≤ e.count) && decide (bc < e.count)
    then selectBest rest (some (e.data, e.key, e.count)) e.count
    else selectBest rest best bc

/-- fn find_source_binary (toyota): scan, then "No valid binaries
found" when no candidate exists, otherwise the selection loop, "No
consensus found" when it selects nothing. -/
def find_source_binary (reads : List (Option Bytes)) : Except CycleErr (Bytes × Nat × Nat) :=
  let cs := scanToyota reads
  if cs.isEmpty then .error .noValidSource
  else
    match selectBest cs none 0 with
    | some r => .ok r
    | none => .error .noConsensus

/-- fn preflight_check (toyota): memory canary, then free disk below
MIN_FREE_DISK_MB = 100, then the Jidoka repair ceiling
(repairs > REPAIR_LIMIT). -/
def preflight_check (m : GuardianState) : Except CycleErr Unit :=
  if m.canary ≠ MEMORY_CANARY then .error .memoryCorruption
  else
    match diskLow m 100 with
    | some a => .error (.lowDisk a)
    | none =>
      if REPAIR_LIMIT < m.repairCounter then .error (.repairLimit m.repairCounter)
      else .ok ()

/-- The consensus-and-repair part of check_and_repair (toyota), after
preflight: find the source, set the andon state from the consensus
count, run the repair loop, bump REPAIR_COUNTER, escalate to Warning
when more than 5 repairs failed this cycle. -/
def repairPhase (m : GuardianState) (ledger : List Nat) :
    Except CycleErr Nat × GuardianState × List Nat :=
  match find_source_binary (m.locs.map Loc.content) with
  | .error e => (.error e, m, ledger)
  | .ok (d, c, n) =>
    let st1 : Nat := if n < 5 then 2 else if n < 10 then 1 else 0
    let out := repairLoop validate_binary_redundant d c m.locs ledger
    let st2 : Nat := if 5 < out.2.2.2 then 2 else st1
    (.ok out.2.2.1,
     { m with locs := out.1, repairCounter := m.repairCounter + out.2.2.1, keeperState := st2 },
     out.2.1)

/-- fn check_and_repair (toyota): preflight first — memory corruption
and repair-limit failures set the Critical andon and abort the cycle,
a low-disk failure sets Warning and continues — then the repair
phase. -/
def check_and_repair (m : GuardianState) (ledger : List Nat) :
    Except CycleErr Nat × GuardianState × List Nat :=
  match preflight_check m with
  | .error .memoryCorruption => (.error .memoryCorruption, { m with keeperState := 3 }, ledger)
  | .error (.repairLimit n) => (.error (.repairLimit n), { m with keeperState := 3 }, ledger)
  | .error _ => repairPhase { m with keeperState := 2 } ledger
  | .ok _ => repairPhase m ledger

/-- The service loop of fn run_service (toyota), fuel-bounded (fuel =
number of timer ticks before an external shutdown signal): run a
cycle each tick; break after a cycle that reports memory corruption
or ends in the Critical state.  Returns the results of the executed
cycles and the final state and ledger. -/
def run_service : Nat → GuardianState → List Nat →
    List (Except CycleErr Nat) × GuardianState × List Nat
  | 0, m, l => ([], m, l)
  | fuel + 1, m, l =>
    let out := check_and_repair m l
    if out.1 = .error .memoryCorruption ∨ 3 ≤ out.2.1.keeperState then
      ([out.1], out.2.1, out.2.2)
    else
      let rest := run_service fuel out.2.1 out.2.2
      (out.1 :: rest.1, rest.2.1, rest.2.2)

/-- Single-check mode of fn main (toyota): exit(0) on Ok(_),
exit(1) on Err(_). -/
def one_shot_exit (m : GuardianState) (ledger : List Nat) : Nat :=
  match (check_and_repair m ledger).1 with
  | .ok _ => 0
  | .error _ => 1

end ToyotaKeeper

namespace SpacexKeeper

open Keeper

/-- The value of the candidates HashMap at one CRC key (spacex): the
first content inserted under that key and the support count. -/
structure Cand where
  key : Nat
  data : Bytes
  count : Nat
deriving DecidableEq

/-- candidates.entry(checksum).or_insert((data, 0)); entry.1 += 1. -/
def insertCand (c : Nat) (d : Bytes) : List Cand → List Cand
  | [] => [⟨c, d, 1⟩]
  | e :: rest =>
    if e.key = c then { e with count := e.count + 1 } :: rest
    else e :: insertCand c d rest

/-- The scan phase of find_source_binary (spacex). -/
def scanSpacex (reads : List (Option Bytes)) : List Cand :=
  reads.foldl
    (fun cs r =>
      match r with
      | some d => if validate_binary d then insertCand (crc32 d) d cs else cs
      | none => cs)
    []

/-- Iterator::max_by_key on the support count: the last maximal
element in iteration order (modelled as insertion order). -/
def maxByCount (x : Cand) : List Cand → Cand
  | [] => x
  | y :: rest => if x.count ≤ y.count then maxByCount y rest else maxByCount x rest

/-- fn find_source_binary (spacex): scan, "No valid guardian binaries
found" when empty, otherwise the candidate with the most copies. -/
def find_source_binary (reads : List (Option Bytes)) : Except CycleErr (Bytes × Nat) :=
  match scanSpacex reads with
  | [] => .error .noValidSource
  | x :: rest =>
    let w := maxByCount x rest
    .ok (w.data, w.key)

/-- fn preflight_check (spacex): memory canary, then free disk below
MIN_FREE_DISK_MB = 50.  No repair-limit check in this variant. -/
def preflight_check (m : GuardianState) : Except CycleErr Unit :=
  if m.canary ≠ MEMORY_CANARY then .error .memoryCorruption
  else
    match diskLow m 50 with
    | some a => .error (.lowDisk a)
    | none => .ok ()

/-- The consensus-and-repair part of check_and_repair (spacex). -/
def repairPhase (m : GuardianState) (ledger : List Nat) :
    Except CycleErr Nat × GuardianState × List Nat :=
  match find_source_binary (m.locs.map Loc.content) with
  | .error e => (.error e, m, ledger)
  | .ok (d, c) =>
    let out := repairLoop validate_binary d c m.locs ledger
    (.ok out.2.2.1,
     { m with locs := out.1, repairCounter := m.repairCounter + out.2.2.1 },
     out.2.1)

/-- fn check_and_repair (spacex): a preflight memory-corruption
failure aborts the cycle (no state machine in this variant); any
other preflight failure is only logged and the cycle continues. -/
def check_and_repair (m : GuardianState) (ledger : List Nat) :
    Except CycleErr Nat × GuardianState × List Nat :=
  match preflight_check m with
  | .error .memoryCorruption => (.error .memoryCorruption, m, ledger)
  | _ => repairPhase m ledger

/-- The service loop of fn run_service (spacex), fuel-bounded: this
variant never breaks out of the loop on its own — on a memory
corruption error it logs "entering safe mode" and keeps looping
(source comment: "Don't exit, just skip checks until memory
recovers"). -/
def run_service : Nat → GuardianState → List Nat →
    List (Except CycleErr Nat) × GuardianState × List Nat
  | 0, m, l => ([], m, l)
  | fuel + 1, m, l =>
    let out := check_and_repair m l
    let rest := run_service fuel out.2.1 out.2.2
    (out.1 :: rest.1, rest.2.1, rest.2.2)

/-- Single-check mode of fn main (spacex): exit(0) on Ok(_),
exit(1) on Err(_). -/
def one_shot_exit (m : GuardianState) (ledger : List Nat) : Nat :=
  match (check_and_repair m ledger).1 with
  | .ok _ => 0
  | .error _ => 1

end SpacexKeeper

namespace Keeper

/-- The two files the atomic-write protocol touches: the target path
and the sibling temporary path (none = file absent). -/
structure FileState where
  target : Option Bytes
  temp : Option Bytes
deriving DecidableEq

/-- Failures of the atomic-write protocol. -/
inductive WriteErr where
  | unsafePath : WriteErr
  | tempExists : WriteErr
  | readFailed : WriteErr
  | verificationFailed : WriteErr
deriving DecidableEq

/-- The valid observed contents of one scan, in scan order: the
successfully read contents that pass the validator. -/
def valids (validate : Bytes → Bool) (reads : List (Option Bytes)) : List Bytes :=
  (reads.filterMap id).filter validate

/-- A 1024-byte shebang script blob: "#!" then 1022 bytes 'A'. -/
def blobA : Bytes := 35 :: 33 :: List.replicate 1022 65

/-- A 1024-byte shebang script blob: "#!" then 1022 bytes 'B'. -/
def blobB : Bytes := 35 :: 33 :: List.replicate 1022 66

/-- Read outcomes: two replicas hold A, one holds B (majority 2 of 3). -/
def readsAAB : List (Option Bytes) := [some blobA, some blobA, some blobB]

/-- A healthy environment whose canary was clobbered to 0. -/
def mBadCanary : GuardianState :=
  { locs := [], canary := 0, diskAvail := some 500, repairCounter := 0, keeperState := 0 }

/-- The spec's no-quorum scenario: 5 locations, 2 hold A, 2 hold B,
1 missing; healthy environment. -/
def mSplit : GuardianState :=
  { locs := [⟨some blobA, true, true⟩, ⟨some blobA, true, true⟩,
             ⟨some blobB, true, true⟩, ⟨some blobB, true, true⟩, ⟨none, true, true⟩],
    canary := MEMORY_CANARY, diskAvail := some 500, repairCounter := 0, keeperState := 0 }

/-- A repairable scenario: 3 hold A, 1 holds B, 1 missing. -/
def mRep : GuardianState :=
  { locs := [⟨some blobA, true, true⟩, ⟨some blobA, true, true⟩,
             ⟨some blobA, true, true⟩, ⟨some blobB, true, true⟩, ⟨none, true, true⟩],
    canary := MEMORY_CANARY, diskAvail := some 500, repairCounter := 0, keeperState := 0 }

/-- As mRep but the fourth location can never be written. -/
def mStuck : GuardianState :=
  { locs := [⟨some blobA, true, true⟩, ⟨some blobA, true, true⟩,
             ⟨some blobA, true, true⟩, ⟨some blobB, false, true⟩, ⟨none, true, true⟩],
    canary := MEMORY_CANARY, diskAvail := some 500, repairCounter := 0, keeperState := 0 }

/-- An all-zero 5-entry repair ledger. -/
def ledger5 : List Nat := [0, 0, 0, 0, 0]

end Keeper

namespace ToyotaKeeper

open Keeper

/-- fn write_binary_atomic_safe (toyota).  pathUnsafe: does the path
string start with /etc, /usr or /bin.  readBack: what fs::read
returns for the temp file after write_all + sync_all (a faithful
filesystem yields some data; other values model external
interference).  Directory-entry effects are modelled: create_new
fails if the temp name exists; remove_file and rename succeed. -/
def write_binary_atomic_safe (pathUnsafe : Bool) (readBack : Option Bytes)
    (f : FileState) (data : Bytes) : Except WriteErr Unit × FileState :=
  if pathUnsafe then (.error .unsafePath, f)
  else if f.temp.isSome then (.error .tempExists, f)
  else
    let f1 : FileState := { f with temp := some data }
    match readBack with
    | none => (.error .readFailed, f1)
    | some w =>
      if w != data || !validate_binary_redundant w then
        (.error .verificationFailed, { f1 with temp := none })
      else
        (.ok (), { target := some data, temp := none })

/-- Association-list lookup on the CRC key (the HashMap access). -/
def lookupKey (c : Nat) : List Cand → Option Cand
  | [] => none
  | e :: rest => if e.key = c then some e else lookupKey c rest

/-- What one candidate entry must say about the valid observed
contents vs: its group g (the valids whose CRC is the entry's key) is
summarized by the entry — first member as the stored bytes, the
Fletcher digests of the members in order, the group size as the
support count. -/
def entryOk (vs : List Bytes) (e : Cand) : Prop :=
  (vs.filter (fun x => crc32 x == e.key)).head? = some e.data ∧
  e.fls = (vs.filter (fun x => crc32 x == e.key)).map fletcher32 ∧
  e.count = (vs.filter (fun x => crc32 x == e.key)).length

/-- The candidates map faithfully summarizes the valid observed
contents: distinct keys; present keys summarize their group; absent
keys have an empty group. -/
def scanInv (vs : List Bytes) (cs : List Cand) : Prop :=
  (cs.map Cand.key).Nodup ∧
  ∀ c : Nat,
    match lookupKey c cs with
    | some e => e.key = c ∧ entryOk vs e
    | none => vs.filter (fun x => crc32 x == c) = []

end ToyotaKeeper

namespace SpacexKeeper

open Keeper

/-- fn write_binary_atomic (spacex): as the toyota variant but with
no system-path denylist and no re-validation — the read-back is only
byte-compared against data. -/
def write_binary_atomic (readBack : Option Bytes)
    (f : FileState) (data : Bytes) : Except WriteErr Unit × FileState :=
  if f.temp.isSome then (.error .tempExists, f)
  else
    let f1 : FileState := { f with temp := some data }
    match readBack with
    | none => (.error .readFailed, f1)
    | some w =>
      if w != data then
        (.error .verificationFailed, { f1 with temp := none })
      else
        (.ok (), { target := some data, temp := none })

/-- Association-list lookup on the CRC key (the HashMap access). -/
def lookupKey (c : Nat) : List Cand → Option Cand
  | [] => none
  | e :: rest => if e.key = c then some e else lookupKey c rest

/-- As ToyotaKeeper.entryOk, without the Fletcher component. -/
def entryOk (vs : List Bytes) (e : Cand) : Prop :=
  (vs.filter (fun x => crc32 x == e.key)).head? = some e.data ∧
  e.count = (vs.filter (fun x => crc32 x == e.key)).length

/-- As ToyotaKeeper.scanInv. -/
def scanInv (vs : List Bytes) (cs : List Cand) : Prop :=
  (cs.map Cand.key).Nodup ∧
  ∀ c : Nat,
    match lookupKey c cs with
    | some e => e.key = c ∧ entryOk vs e
    | none => vs.filter (fun x => crc32 x == c) = []

end SpacexKeeper

/-!
Theorems.  First general helper lemmas, then for each claim C1..C10
its theorem (and counterexample / witness where needed).
-/

set_option maxRecDepth 60000
set_option maxHeartbeats 1000000

namespace Keeper

theorem forceEval_eq {α : Sort u} (n : Nat) (f : Nat → α) : forceEval n f = f n := by
  cases n <;> rfl

theorem crcFold_eq_foldl (l : Bytes) (crc : Nat) :
    crcFold crc l = l.foldl crc32Byte crc := by
  induction l generalizing crc with
  | nil => rfl
  | cons b t ih => simp [crcFold, forceEval_eq, List.foldl_cons, ih]

/-- Characterization of the spacex validator: minimum size, then ELF
header with embedded signature, or shebang header (no signature
required for scripts). -/
theorem validate_binary_iff (data : Bytes) :
    validate_binary data = true ↔
      1024 ≤ data.length ∧
      ((startsWith elfMagic data = true ∧
          containsSlice GUARDIAN_SIGNATURE_SPACEX data = true) ∨
        startsWith shebangMagic data = true) := by
  unfold validate_binary
  by_cases h : data.length < 1024
  · simp only [if_pos h]
    constructor
    · intro hf; exact absurd hf (by simp)
    · intro hc; omega
  · have h1024 : 1024 ≤ data.length := by omega
    have h4 : decide (4 ≤ data.length) = true := by simp; omega
    have h2 : decide (2 ≤ data.length) = true := by simp; omega
    simp only [if_neg h, h4, h2, Bool.true_and]
    by_cases he : startsWith elfMagic data = true
    · simp only [he, if_pos rfl]
      by_cases hs : containsSlice GUARDIAN_SIGNATURE_SPACEX data = true
      · simp [hs, h1024, he]
      · simp at hs
        simp [hs, h1024, he]
    · have he' : startsWith elfMagic data = false := by
        cases hx : startsWith elfMagic data
        · rfl
        · exact absurd hx he
      simp [he', h1024]

/-- Characterization of the toyota validator: minimum size, ELF or
shebang header, both checksums nonzero — the GUARDIAN_SIGNATURE is
computed by the source but not required. -/
theorem validate_binary_redundant_iff (data : Bytes) :
    validate_binary_redundant data = true ↔
      1024 ≤ data.length ∧
      (startsWith elfMagic data = true ∨ startsWith shebangMagic data = true) ∧
      crc32 data ≠ 0 ∧ fletcher32 data ≠ 0 := by
  unfold validate_binary_redundant
  by_cases h : data.length < 1024
  · simp only [if_pos h]
    constructor
    · intro hf; exact absurd hf (by simp)
    · intro hc; omega
  · have h1024 : 1024 ≤ data.length := by omega
    have h4 : decide (4 ≤ data.length) = true := by simp; omega
    have h2 : decide (2 ≤ data.length) = true := by simp; omega
    simp only [if_neg h, h4, h2, Bool.true_and]
    simp [h1024, Bool.or_eq_true, Bool.and_eq_true, ne_eq]

/-- C4 counterexample: blobA is a 1024-byte shebang blob that
contains neither variant's GUARDIAN_SIGNATURE, yet both validators
accept it — contradicting "accepts b only when ... AND ... the
marker byte sequence occurs somewhere in b". -/
theorem c4_counterexample :
    validate_binary blobA = true ∧
    validate_binary_redundant blobA = true ∧
    containsSlice GUARDIAN_SIGNATURE_SPACEX blobA = false ∧
    containsSlice GUARDIAN_SIGNATURE_TOYOTA blobA = false ∧
    1024 ≤ blobA.length := by decide

/-- C4 amended: both validators reject blobs under 1024 bytes and
accept only blobs beginning with an ELF header or a shebang; the
GUARDIAN_SIGNATURE marker is required only by the spacex validator
and only for ELF-headed blobs (never for shebang blobs); the toyota
validator never requires the marker and instead requires both
checksums to be nonzero. -/
theorem c4_amended (data : Bytes) :
    (validate_binary data = true ↔
      1024 ≤ data.length ∧
      ((startsWith elfMagic data = true ∧
          containsSlice GUARDIAN_SIGNATURE_SPACEX data = true) ∨
        startsWith shebangMagic data = true)) ∧
    (validate_binary_redundant data = true ↔
      1024 ≤ data.length ∧
      (startsWith elfMagic data = true ∨ startsWith shebangMagic data = true) ∧
      crc32 data ≠ 0 ∧ fletcher32 data ≠ 0) :=
  ⟨validate_binary_iff data, validate_binary_redundant_iff data⟩

/-- C5 counterexample: the spacex atomic write accepts a read-back
that byte-matches the requested data but fails the Validator — the
write succeeds and renames over the target, so the write-path is not
re-validated with the Validator as the claim states. -/
theorem c5_counterexample :
    SpacexKeeper.write_binary_atomic (some [1, 2, 3]) ⟨some [9], none⟩ [1, 2, 3]
        = (.ok (), ⟨some [1, 2, 3], none⟩) ∧
    validate_binary [1, 2, 3] = false := by decide

/-- C5 amended: on a read-back mismatch the temp file is deleted, the
write fails with VerificationFailed and the target is untouched (the
rename is never reached); the toyota variant treats a Validator
failure of the read-back as a mismatch too, while the spacex variant
only byte-compares. -/
theorem c5_amended :
    (∀ (rb : Option Bytes) (f : FileState) (d w : Bytes),
      f.temp = none → rb = some w →
      (w ≠ d ∨ validate_binary_redundant w = false) →
      ToyotaKeeper.write_binary_atomic_safe false rb f d
        = (.error .verificationFailed, ⟨f.target, none⟩)) ∧
    (∀ (rb : Option Bytes) (f : FileState) (d w : Bytes),
      f.temp = none → rb = some w → w ≠ d →
      SpacexKeeper.write_binary_atomic rb f d
        = (.error .verificationFailed, ⟨f.target, none⟩)) := by
  constructor
  · intro rb f d w ht hrb hw
    subst hrb
    obtain ⟨tgt, tmp⟩ := f
    change tmp = none at ht
    subst ht
    have hcond : (w != d || !validate_binary_redundant w) = true := by
      rcases hw with hw | hw
      · simp [hw]
      · simp [hw]
    simp [ToyotaKeeper.write_binary_atomic_safe, hcond]
  · intro rb f d w ht hrb hw
    subst hrb
    obtain ⟨tgt, tmp⟩ := f
    change tmp = none at ht
    subst ht
    have hcond : (w != d) = true := by simp [hw]
    simp [SpacexKeeper.write_binary_atomic, hcond]

/-- C5 witness: the amended theorem at a concrete mismatching
read-back, both variants. -/
theorem c5_witness :
    ToyotaKeeper.write_binary_atomic_safe false (some [2]) ⟨some [7], none⟩ [1]
        = (.error .verificationFailed, ⟨some [7], none⟩) ∧
    SpacexKeeper.write_binary_atomic (some [2]) ⟨some [7], none⟩ [1]
        = (.error .verificationFailed, ⟨some [7], none⟩) :=
  ⟨c5_amended.1 _ _ _ _ rfl rfl (Or.inl (by decide)),
   c5_amended.2 _ _ _ _ rfl rfl (by decide)⟩

end Keeper

namespace ToyotaKeeper

open Keeper

theorem find_source_error_kinds (reads : List (Option Bytes)) (e : CycleErr)
    (h : find_source_binary reads = .error e) :
    e = .noValidSource ∨ e = .noConsensus := by
  unfold find_source_binary at h
  dsimp only at h
  split at h
  · injection h with h
    exact Or.inl h.symm
  · split at h
    · exact absurd h (by simp)
    · injection h with h
      exact Or.inr h.symm

theorem find_source_not_mem (reads : List (Option Bytes)) :
    find_source_binary reads ≠ .error .memoryCorruption := by
  intro h
  rcases find_source_error_kinds reads _ h with h' | h' <;> exact CycleErr.noConfusion h'

/-- The repair phase either propagates a consensus error leaving the
state untouched, or runs the repair loop on the consensus content. -/
theorem repairPhase_path (m : GuardianState) (l : List Nat) :
    ((∃ e, (repairPhase m l).1 = .error e ∧
        find_source_binary (m.locs.map Loc.content) = .error e) ∧
      (repairPhase m l).2.1 = m ∧ (repairPhase m l).2.2 = l)
    ∨ (∃ d c n, find_source_binary (m.locs.map Loc.content) = .ok (d, c, n) ∧
        (repairPhase m l).1
            = .ok (repairLoop validate_binary_redundant d c m.locs l).2.2.1 ∧
        (repairPhase m l).2.1.locs = (repairLoop validate_binary_redundant d c m.locs l).1 ∧
        (repairPhase m l).2.2 = (repairLoop validate_binary_redundant d c m.locs l).2.1 ∧
        (repairPhase m l).2.1.repairCounter
            = m.repairCounter + (repairLoop validate_binary_redundant d c m.locs l).2.2.1 ∧
        (repairPhase m l).2.1.canary = m.canary ∧
        (repairPhase m l).2.1.diskAvail = m.diskAvail ∧
        (repairPhase m l).2.1.keeperState ≤ 2) := by
  unfold repairPhase
  cases hf : find_source_binary (m.locs.map Loc.content) with
  | error e => left; exact ⟨⟨e, rfl, rfl⟩, rfl, rfl⟩
  | ok t =>
    right
    obtain ⟨d, c, n⟩ := t
    refine ⟨d, c, n, rfl, rfl, rfl, rfl, rfl, rfl, rfl, ?_⟩
    simp only
    split
    · omega
    · split
      · omega
      · split <;> omega

theorem repairPhase_canary (m : GuardianState) (l : List Nat) :
    (repairPhase m l).2.1.canary = m.canary := by
  rcases repairPhase_path m l with ⟨_, h2, _⟩ | ⟨d, c, n, _, _, _, _, _, hc, _⟩
  · rw [h2]
  · exact hc

/-- check_and_repair either fails preflight fatally (Critical, state
otherwise untouched) or behaves as the repair phase of a state
differing at most in the andon field. -/
theorem cycle_path (m : GuardianState) (l : List Nat) :
    (m.canary ≠ MEMORY_CANARY ∧
      check_and_repair m l = (.error .memoryCorruption, { m with keeperState := 3 }, l))
    ∨ (m.canary = MEMORY_CANARY ∧ REPAIR_LIMIT < m.repairCounter ∧ diskLow m 100 = none ∧
      check_and_repair m l
          = (.error (.repairLimit m.repairCounter), { m with keeperState := 3 }, l))
    ∨ (m.canary = MEMORY_CANARY ∧
      ∃ m', (m'.locs = m.locs ∧ m'.canary = m.canary ∧ m'.diskAvail = m.diskAvail ∧
          m'.repairCounter = m.repairCounter) ∧
        check_and_repair m l = repairPhase m' l) := by
  unfold check_and_repair preflight_check
  by_cases hc : m.canary ≠ MEMORY_CANARY
  · left
    simp [hc]
  · push_neg at hc
    cases hd : diskLow m 100 with
    | some a =>
      right; right
      refine ⟨hc, { m with keeperState := 2 }, ⟨rfl, rfl, rfl, rfl⟩, ?_⟩
      simp [hc, hd]
    | none =>
      by_cases hr : REPAIR_LIMIT < m.repairCounter
      · right; left
        refine ⟨hc, hr, rfl, ?_⟩
        simp [hc, hd, hr]
      · right; right
        refine ⟨hc, m, ⟨rfl, rfl, rfl, rfl⟩, ?_⟩
        simp [hc, hd, hr]

theorem cycle_canary (m : GuardianState) (l : List Nat) :
    (check_and_repair m l).2.1.canary = m.canary := by
  rcases cycle_path m l with ⟨_, h⟩ | ⟨_, _, _, h⟩ | ⟨_, m', ⟨_, hc, _, _⟩, h⟩
  · rw [h]
  · rw [h]
  · rw [h, repairPhase_canary m' l, hc]

theorem cycle_not_mem (m : GuardianState) (l : List Nat) (h : m.canary = MEMORY_CANARY) :
    (check_and_repair m l).1 ≠ .error .memoryCorruption := by
  rcases cycle_path m l with ⟨hc, _⟩ | ⟨_, _, _, hq⟩ | ⟨_, m', _, hq⟩
  · exact absurd h hc
  · rw [hq]; simp
  · rw [hq]
    rcases repairPhase_path m' l with ⟨⟨e, he, hf⟩, _, _⟩ | ⟨d, c, n, _, hr, _⟩
    · rw [he]
      intro hx
      injection hx with hx
      subst hx
      exact find_source_not_mem _ hf
    · rw [hr]; simp

/-- The service loop when the break condition holds after the first
cycle of the tick. -/
theorem run_service_stop (k : Nat) (m : GuardianState) (l : List Nat)
    (h : (check_and_repair m l).1 = .error .memoryCorruption
      ∨ 3 ≤ (check_and_repair m l).2.1.keeperState) :
    run_service (k + 1) m l
      = ([(check_and_repair m l).1], (check_and_repair m l).2.1, (check_and_repair m l).2.2) := by
  show (if (check_and_repair m l).1 = .error .memoryCorruption
      ∨ 3 ≤ (check_and_repair m l).2.1.keeperState then _ else _) = _
  rw [if_pos h]

/-- The service loop when the break condition fails after the first
cycle of the tick. -/
theorem run_service_go (k : Nat) (m : GuardianState) (l : List Nat)
    (h : ¬((check_and_repair m l).1 = .error .memoryCorruption
      ∨ 3 ≤ (check_and_repair m l).2.1.keeperState)) :
    run_service (k + 1) m l
      = ((check_and_repair m l).1
            :: (run_service k (check_and_repair m l).2.1 (check_and_repair m l).2.2).1,
          (run_service k (check_and_repair m l).2.1 (check_and_repair m l).2.2).2.1,
          (run_service k (check_and_repair m l).2.1 (check_and_repair m l).2.2).2.2) := by
  show (if (check_and_repair m l).1 = .error .memoryCorruption
      ∨ 3 ≤ (check_and_repair m l).2.1.keeperState then _ else _) = _
  rw [if_neg h]

theorem run_canary (n : Nat) :
    ∀ (m : GuardianState) (l : List Nat),
      (run_service n m l).2.1.canary = m.canary := by
  induction n with
  | zero => intro m l; rfl
  | succ k ih =>
    intro m l
    by_cases h : (check_and_repair m l).1 = .error .memoryCorruption
      ∨ 3 ≤ (check_and_repair m l).2.1.keeperState
    · rw [run_service_stop k m l h]
      exact cycle_canary m l
    · rw [run_service_go k m l h]
      simp only
      rw [ih]
      exact cycle_canary m l

theorem run_results_not_mem (n : Nat) :
    ∀ (m : GuardianState) (l : List Nat), m.canary = MEMORY_CANARY →
      ∀ r ∈ (run_service n m l).1, r ≠ .error .memoryCorruption := by
  induction n with
  | zero => intro m l _ r hr; exact absurd hr (by simp [run_service])
  | succ k ih =>
    intro m l hm r hr
    by_cases h : (check_and_repair m l).1 = .error .memoryCorruption
      ∨ 3 ≤ (check_and_repair m l).2.1.keeperState
    · rw [run_service_stop k m l h] at hr
      simp at hr
      subst hr
      exact cycle_not_mem m l hm
    · rw [run_service_go k m l h] at hr
      simp only [List.mem_cons] at hr
      rcases hr with hr | hr
      · subst hr
        exact cycle_not_mem m l hm
      · exact ih _ _ (by rw [cycle_canary m l]; exact hm) r hr

end ToyotaKeeper

namespace SpacexKeeper

open Keeper

theorem find_source_not_memS (reads : List (Option Bytes)) :
    find_source_binary reads ≠ .error .memoryCorruption := by
  unfold find_source_binary
  cases hs : scanSpacex reads <;> simp

theorem repairPhase_pathS (m : GuardianState) (l : List Nat) :
    ((∃ e, (repairPhase m l).1 = .error e ∧
        find_source_binary (m.locs.map Loc.content) = .error e) ∧
      (repairPhase m l).2.1 = m ∧ (repairPhase m l).2.2 = l)
    ∨ (∃ d c, find_source_binary (m.locs.map Loc.content) = .ok (d, c) ∧
        (repairPhase m l).1 = .ok (repairLoop validate_binary d c m.locs l).2.2.1 ∧
        (repairPhase m l).2.1.locs = (repairLoop validate_binary d c m.locs l).1 ∧
        (repairPhase m l).2.2 = (repairLoop validate_binary d c m.locs l).2.1 ∧
        (repairPhase m l).2.1.repairCounter
            = m.repairCounter + (repairLoop validate_binary d c m.locs l).2.2.1 ∧
        (repairPhase m l).2.1.canary = m.canary ∧
        (repairPhase m l).2.1.diskAvail = m.diskAvail ∧
        (repairPhase m l).2.1.keeperState = m.keeperState) := by
  unfold repairPhase
  cases hf : find_source_binary (m.locs.map Loc.content) with
  | error e => left; exact ⟨⟨e, rfl, rfl⟩, rfl, rfl⟩
  | ok t =>
    right
    obtain ⟨d, c⟩ := t
    exact ⟨d, c, rfl, rfl, rfl, rfl, rfl, rfl, rfl, rfl⟩

theorem cycle_pathS (m : GuardianState) (l : List Nat) :
    (m.canary ≠ MEMORY_CANARY ∧ check_and_repair m l = (.error .memoryCorruption, m, l))
    ∨ (m.canary = MEMORY_CANARY ∧ check_and_repair m l = repairPhase m l) := by
  unfold check_and_repair preflight_check
  by_cases hc : m.canary ≠ MEMORY_CANARY
  · left
    simp [hc]
  · push_neg at hc
    right
    refine ⟨hc, ?_⟩
    cases hd : diskLow m 50 with
    | some a => simp [hc, hd]
    | none => simp [hc, hd]

theorem cycle_canaryS (m : GuardianState) (l : List Nat) :
    (check_and_repair m l).2.1.canary = m.canary := by
  rcases cycle_pathS m l with ⟨_, h⟩ | ⟨_, h⟩
  · rw [h]
  · rw [h]
    rcases repairPhase_pathS m l with ⟨_, h2, _⟩ | ⟨d, c, _, _, _, _, _, hc, _⟩
    · rw [h2]
    · exact hc

theorem cycle_not_memS (m : GuardianState) (l : List Nat) (h : m.canary = MEMORY_CANARY) :
    (check_and_repair m l).1 ≠ .error .memoryCorruption := by
  rcases cycle_pathS m l with ⟨hc, _⟩ | ⟨_, hq⟩
  · exact absurd h hc
  · rw [hq]
    rcases repairPhase_pathS m l with ⟨⟨e, he, hf⟩, _, _⟩ | ⟨d, c, _, hr, _⟩
    · rw [he]
      intro hx
      injection hx with hx
      subst hx
      exact find_source_not_memS _ hf
    · rw [hr]; simp

theorem run_service_succ (k : Nat) (m : GuardianState) (l : List Nat) :
    run_service (k + 1) m l
      = ((check_and_repair m l).1
            :: (run_service k (check_and_repair m l).2.1 (check_and_repair m l).2.2).1,
          (run_service k (check_and_repair m l).2.1 (check_and_repair m l).2.2).2.1,
          (run_service k (check_and_repair m l).2.1 (check_and_repair m l).2.2).2.2) := rfl

theorem run_canaryS (n : Nat) :
    ∀ (m : GuardianState) (l : List Nat),
      (run_service n m l).2.1.canary = m.canary := by
  induction n with
  | zero => intro m l; rfl
  | succ k ih =>
    intro m l
    rw [run_service_succ k m l]
    simp only
    rw [ih]
    exact cycle_canaryS m l

theorem run_results_not_memS (n : Nat) :
    ∀ (m : GuardianState) (l : List Nat), m.canary = MEMORY_CANARY →
      ∀ r ∈ (run_service n m l).1, r ≠ .error .memoryCorruption := by
  induction n with
  | zero => intro m l _ r hr; exact absurd hr (by simp [run_service])
  | succ k ih =>
    intro m l hm r hr
    rw [run_service_succ k m l] at hr
    simp only [List.mem_cons] at hr
    rcases hr with hr | hr
    · subst hr
      exact cycle_not_memS m l hm
    · exact ih _ _ (by rw [cycle_canaryS m l]; exact hm) r hr

end SpacexKeeper

namespace Keeper

/-- C10: no operation of either variant ever stores to the CANARY
atomic: one cycle and any run of the service loop preserve it, and
starting from the initialised value MEMORY_CANARY no executed cycle
can ever report the memory-corruption error (that branch of
preflight_check is unreachable without external interference). -/
theorem c10_canary_invariant :
    (∀ (m : GuardianState) (l : List Nat),
      (ToyotaKeeper.check_and_repair m l).2.1.canary = m.canary ∧
      (SpacexKeeper.check_and_repair m l).2.1.canary = m.canary) ∧
    (∀ (n : Nat) (m : GuardianState) (l : List Nat),
      (ToyotaKeeper.run_service n m l).2.1.canary = m.canary ∧
      (SpacexKeeper.run_service n m l).2.1.canary = m.canary) ∧
    (∀ (n : Nat) (m : GuardianState) (l : List Nat), m.canary = MEMORY_CANARY →
      (∀ r ∈ (ToyotaKeeper.run_service n m l).1, r ≠ .error .memoryCorruption) ∧
      (∀ r ∈ (SpacexKeeper.run_service n m l).1, r ≠ .error .memoryCorruption) ∧
      (ToyotaKeeper.run_service n m l).2.1.canary = MEMORY_CANARY ∧
      (SpacexKeeper.run_service n m l).2.1.canary = MEMORY_CANARY) :=
  ⟨fun m l => ⟨ToyotaKeeper.cycle_canary m l, SpacexKeeper.cycle_canaryS m l⟩,
   fun n m l => ⟨ToyotaKeeper.run_canary n m l, SpacexKeeper.run_canaryS n m l⟩,
   fun n m l hm =>
     ⟨ToyotaKeeper.run_results_not_mem n m l hm,
      SpacexKeeper.run_results_not_memS n m l hm,
      by rw [ToyotaKeeper.run_canary n m l]; exact hm,
      by rw [SpacexKeeper.run_canaryS n m l]; exact hm⟩⟩

/-- C10 witness: the canary invariant applied to a concrete healthy
machine over one service tick, both variants. -/
theorem c10_witness :
    (ToyotaKeeper.run_service 1 mRep ledger5).2.1.canary = MEMORY_CANARY ∧
    (SpacexKeeper.run_service 1 mRep ledger5).2.1.canary = MEMORY_CANARY :=
  ⟨(c10_canary_invariant.2.2 1 mRep ledger5 rfl).2.2.1,
   (c10_canary_invariant.2.2 1 mRep ledger5 rfl).2.2.2⟩

/-- C8 counterexample: with a clobbered canary the spacex service
loop does NOT stop — with fuel for two ticks it executes a second
scan-and-repair cycle after the cycle that reported MemoryCorruption
(both cycles report the error), and the spacex variant has no safety
state to make Critical. -/
theorem c8_counterexample :
    SpacexKeeper.run_service 2 mBadCanary []
      = ([.error .memoryCorruption, .error .memoryCorruption], mBadCanary, []) := by decide

/-- C8 amended: in the toyota variant a clobbered canary makes the
next cycle report MemoryCorruption, set the Critical andon state and
stop the service loop (exactly one cycle runs whatever the fuel); in
the spacex variant the loop keeps executing a cycle per tick, every
one of which reports MemoryCorruption, and the state never changes. -/
theorem c8_amended :
    (∀ (fuel : Nat) (m : GuardianState) (l : List Nat),
      m.canary ≠ MEMORY_CANARY → 1 ≤ fuel →
      ToyotaKeeper.run_service fuel m l
          = ([.error .memoryCorruption], { m with keeperState := 3 }, l) ∧
      (ToyotaKeeper.check_and_repair m l).1 = .error .memoryCorruption ∧
      (ToyotaKeeper.run_service fuel m l).2.1.keeperState = 3) ∧
    (∀ (fuel : Nat) (m : GuardianState) (l : List Nat),
      m.canary ≠ MEMORY_CANARY →
      (SpacexKeeper.run_service fuel m l).1
          = List.replicate fuel (.error .memoryCorruption) ∧
      (SpacexKeeper.run_service fuel m l).2.1 = m ∧
      (SpacexKeeper.run_service fuel m l).2.2 = l) := by
  constructor
  · intro fuel m l hm hf
    obtain ⟨k, rfl⟩ : ∃ k, fuel = k + 1 := ⟨fuel - 1, by omega⟩
    have hcyc : ToyotaKeeper.check_and_repair m l
        = (.error .memoryCorruption, { m with keeperState := 3 }, l) := by
      rcases ToyotaKeeper.cycle_path m l with ⟨_, h⟩ | ⟨hc, _⟩ | ⟨hc, _⟩
      · exact h
      · exact absurd hc hm
      · exact absurd hc hm
    have hrun : ToyotaKeeper.run_service (k + 1) m l
        = ([.error .memoryCorruption], { m with keeperState := 3 }, l) := by
      rw [ToyotaKeeper.run_service_stop k m l (by rw [hcyc]; exact Or.inl rfl), hcyc]
    exact ⟨hrun, by rw [hcyc], by rw [hrun]⟩
  · intro fuel m l hm
    have hcyc : SpacexKeeper.check_and_repair m l = (.error .memoryCorruption, m, l) := by
      rcases SpacexKeeper.cycle_pathS m l with ⟨_, h⟩ | ⟨hc, _⟩
      · exact h
      · exact absurd hc hm
    induction fuel with
    | zero => exact ⟨rfl, rfl, rfl⟩
    | succ k ih =>
      rw [SpacexKeeper.run_service_succ k m l, hcyc]
      simp only
      exact ⟨by rw [ih.1]; rfl, ih.2.1, ih.2.2⟩

/-- C8 witness: the toyota half of the amended claim at the concrete
clobbered-canary machine with fuel 3: one cycle runs, reports the
corruption, and the final state is Critical. -/
theorem c8_witness :
    ToyotaKeeper.run_service 3 mBadCanary []
        = ([.error .memoryCorruption], { mBadCanary with keeperState := 3 }, []) ∧
    (ToyotaKeeper.run_service 3 mBadCanary []).2.1.keeperState = 3 :=
  ⟨(c8_amended.1 3 mBadCanary [] (by decide) (by decide)).1,
   (c8_amended.1 3 mBadCanary [] (by decide) (by decide)).2.2⟩

end Keeper

namespace ToyotaKeeper

open Keeper

theorem selectBest_stable : ∀ (cs : List Cand) (best : Option (Bytes × Nat × Nat)) (bc : Nat),
    (∀ e ∈ cs, e.count ≤ bc) → selectBest cs best bc = best := by
  intro cs
  induction cs with
  | nil => intro best bc _; rfl
  | cons a rest ih =>
    intro best bc h
    unfold selectBest
    have hlt : decide (bc < a.count) = false := by
      simp only [decide_eq_false_iff_not, not_lt]
      exact h a (by simp)
    rw [hlt]
    simp only [Bool.and_false, Bool.false_eq_true, if_false]
    exact ih best bc fun e he => h e (List.mem_cons_of_mem _ he)

theorem selectBest_none : ∀ (cs : List Cand) (best : Option (Bytes × Nat × Nat)) (bc : Nat),
    (∀ e ∈ cs, e.count < CONSENSUS_THRESHOLD) → selectBest cs best bc = best := by
  intro cs
  induction cs with
  | nil => intro best bc _; rfl
  | cons a rest ih =>
    intro best bc h
    unfold selectBest
    have hth : decide (CONSENSUS_THRESHOLD ≤ a.count) = false := by
      simp only [decide_eq_false_iff_not, not_le]
      exact h a (by simp)
    rw [hth]
    simp only [Bool.and_false, Bool.false_and, Bool.false_eq_true, if_false]
    exact ih best bc fun e he => h e (List.mem_cons_of_mem _ he)

theorem selectBest_picks : ∀ (cs : List Cand) (t : Cand), t ∈ cs →
    chainEq t.fls = true → CONSENSUS_THRESHOLD ≤ t.count →
    (∀ e ∈ cs, e = t ∨ e.count < t.count) →
    ∀ (best : Option (Bytes × Nat × Nat)) (bc : Nat), bc < t.count →
      selectBest cs best bc = some (t.data, t.key, t.count) := by
  intro cs
  induction cs with
  | nil => intro t ht; cases ht
  | cons a rest ih =>
    intro t ht hch hth hall best bc hbc
    by_cases hat : a = t
    · subst hat
      unfold selectBest
      rw [if_pos (by simp [hch, hth, hbc])]
      apply selectBest_stable
      intro e he
      rcases hall e (List.mem_cons_of_mem _ he) with rfl | hlt
      · exact le_refl _
      · omega
    · have htr : t ∈ rest := by
        rcases List.mem_cons.mp ht with h | h
        · exact absurd h.symm hat
        · exact h
      have halt : a.count < t.count := by
        rcases hall a (by simp) with h | h
        · exact absurd h hat
        · exact h
      have hrest : ∀ e ∈ rest, e = t ∨ e.count < t.count :=
        fun e he => hall e (List.mem_cons_of_mem _ he)
      unfold selectBest
      by_cases hcond :
          (chainEq a.fls && decide (CONSENSUS_THRESHOLD ≤ a.count) && decide (bc < a.count)) = true
      · rw [if_pos hcond]
        exact ih t htr hch hth hrest _ a.count halt
      · rw [if_neg hcond]
        exact ih t htr hch hth hrest best bc hbc

theorem selectBest_sound : ∀ (cs : List Cand) (best : Option (Bytes × Nat × Nat)) (bc : Nat)
    (d : Bytes) (c n : Nat),
    selectBest cs best bc = some (d, c, n) →
    best = some (d, c, n) ∨
      ∃ e ∈ cs, e.data = d ∧ e.key = c ∧ e.count = n ∧ chainEq e.fls = true ∧
        CONSENSUS_THRESHOLD ≤ e.count := by
  intro cs
  induction cs with
  | nil => intro best bc d c n h; exact Or.inl h
  | cons a rest ih =>
    intro best bc d c n h
    unfold selectBest at h
    by_cases hcond :
        (chainEq a.fls && decide (CONSENSUS_THRESHOLD ≤ a.count) && decide (bc < a.count)) = true
    · rw [if_pos hcond] at h
      have hch : chainEq a.fls = true := by
        have := hcond
        simp only [Bool.and_eq_true] at this
        exact this.1.1
      have hth : CONSENSUS_THRESHOLD ≤ a.count := by
        have := hcond
        simp only [Bool.and_eq_true, decide_eq_true_eq] at this
        exact this.1.2
      rcases ih _ _ _ _ _ h with heq | ⟨e, he, hp⟩
      · injection heq with heq
        right
        refine ⟨a, by simp, ?_, ?_, ?_, hch, hth⟩
        · exact congrArg Prod.fst heq
        · exact congrArg (fun p => p.2.1) heq
        · exact congrArg (fun p => p.2.2) heq
      · exact Or.inr ⟨e, List.mem_cons_of_mem _ he, hp⟩
    · rw [if_neg hcond] at h
      rcases ih _ _ _ _ _ h with heq | ⟨e, he, hp⟩
      · exact Or.inl heq
      · exact Or.inr ⟨e, List.mem_cons_of_mem _ he, hp⟩

theorem find_source_sound (reads : List (Option Bytes)) (d : Bytes) (c n : Nat)
    (h : find_source_binary reads = .ok (d, c, n)) :
    ∃ e ∈ scanToyota reads, e.data = d ∧ e.key = c ∧ e.count = n ∧ chainEq e.fls = true ∧
      CONSENSUS_THRESHOLD ≤ e.count := by
  unfold find_source_binary at h
  dsimp only at h
  by_cases he : (scanToyota reads).isEmpty = true
  · rw [if_pos he] at h
    exact absurd h (by simp)
  · rw [if_neg he] at h
    cases hsel : selectBest (scanToyota reads) none 0 with
    | none => rw [hsel] at h; exact absurd h (by simp)
    | some r =>
      rw [hsel] at h
      injection h with h
      subst h
      rcases selectBest_sound _ _ _ _ _ _ hsel with heq | ⟨e, he2, hp⟩
      · exact absurd heq (by simp)
      · exact ⟨e, he2, hp⟩

theorem lookupKey_mem : ∀ (cs : List Cand) (c : Nat) (e : Cand),
    lookupKey c cs = some e → e ∈ cs ∧ e.key = c := by
  intro cs
  induction cs with
  | nil => intro c e h; cases h
  | cons a rest ih =>
    intro c e h
    unfold lookupKey at h
    by_cases hk : a.key = c
    · rw [if_pos hk] at h
      injection h with h
      subst h
      exact ⟨by simp, hk⟩
    · rw [if_neg hk] at h
      obtain ⟨h1, h2⟩ := ih c e h
      exact ⟨List.mem_cons_of_mem _ h1, h2⟩

theorem mem_lookupKey : ∀ (cs : List Cand), (cs.map Cand.key).Nodup →
    ∀ e ∈ cs, lookupKey e.key cs = some e := by
  intro cs
  induction cs with
  | nil => intro _ e he; cases he
  | cons a rest ih =>
    intro hnd e he
    rw [List.map_cons, List.nodup_cons] at hnd
    rcases List.mem_cons.mp he with rfl | hr
    · unfold lookupKey
      rw [if_pos rfl]
    · have hne : a.key ≠ e.key := by
        intro hx
        exact hnd.1 (hx ▸ List.mem_map_of_mem Cand.key hr)
      unfold lookupKey
      rw [if_neg hne]
      exact ih hnd.2 e hr

theorem lookup_insert_self : ∀ (cs : List Cand) (c : Nat) (d : Bytes) (fl : Nat),
    lookupKey c (insertCand c d fl cs)
      = some (match lookupKey c cs with
              | some e => { e with fls := e.fls ++ [fl], count := e.count + 1 }
              | none => ⟨c, d, [fl], 1⟩) := by
  intro cs
  induction cs with
  | nil => intro c d fl; simp [insertCand, lookupKey]
  | cons a rest ih =>
    intro c d fl
    by_cases hk : a.key = c
    · unfold insertCand
      rw [if_pos hk]
      unfold lookupKey
      rw [if_pos hk, if_pos hk]
    · unfold insertCand
      rw [if_neg hk]
      unfold lookupKey
      rw [if_neg hk, if_neg hk]
      exact ih c d fl

theorem lookup_insert_other : ∀ (cs : List Cand) (c' c : Nat) (d : Bytes) (fl : Nat),
    c' ≠ c → lookupKey c' (insertCand c d fl cs) = lookupKey c' cs := by
  intro cs
  induction cs with
  | nil =>
    intro c' c d fl hne
    have hcc : ¬c = c' := fun h => hne h.symm
    simp [insertCand, lookupKey, hcc]
  | cons a rest ih =>
    intro c' c d fl hne
    by_cases hk : a.key = c
    · unfold insertCand
      rw [if_pos hk]
      unfold lookupKey
      by_cases hk' : a.key = c'
      · exact absurd (hk'.symm.trans hk) hne
      · rw [if_neg hk', if_neg hk']
    · unfold insertCand
      rw [if_neg hk]
      unfold lookupKey
      by_cases hk' : a.key = c'
      · rw [if_pos hk', if_pos hk']
      · rw [if_neg hk', if_neg hk']
        exact ih c' c d fl hne

theorem insert_keys : ∀ (cs : List Cand) (c : Nat) (d : Bytes) (fl : Nat),
    (insertCand c d fl cs).map Cand.key
      = if c ∈ cs.map Cand.key then cs.map Cand.key else cs.map Cand.key ++ [c] := by
  intro cs
  induction cs with
  | nil => intro c d fl; simp [insertCand]
  | cons a rest ih =>
    intro c d fl
    by_cases hk : a.key = c
    · unfold insertCand
      rw [if_pos hk]
      simp [hk]
    · unfold insertCand
      rw [if_neg hk]
      rw [List.map_cons, List.map_cons, ih c d fl]
      by_cases hm : c ∈ rest.map Cand.key
      · rw [if_pos hm, if_pos (by simp [hm])]
      · rw [if_neg hm,
          if_neg (by simp only [List.mem_cons]; push_neg; exact ⟨fun h => hk h.symm, hm⟩)]
        rfl

theorem insert_nodup (cs : List Cand) (c : Nat) (d : Bytes) (fl : Nat)
    (h : (cs.map Cand.key).Nodup) : ((insertCand c d fl cs).map Cand.key).Nodup := by
  rw [insert_keys]
  by_cases hm : c ∈ cs.map Cand.key
  · rwa [if_pos hm]
  · rw [if_neg hm]
    simp [List.nodup_append, h, hm]

end ToyotaKeeper

namespace ToyotaKeeper

open Keeper

theorem scanInv_insert (vs : List Bytes) (cs : List Cand) (x : Bytes)
    (h : scanInv vs cs) :
    scanInv (vs ++ [x]) (insertCand (crc32 x) x (fletcher32 x) cs) := by
  obtain ⟨hnd, hch⟩ := h
  refine ⟨insert_nodup cs _ x _ hnd, ?_⟩
  intro c
  by_cases hc : c = crc32 x
  · subst hc
    rw [lookup_insert_self]
    cases hl : lookupKey (crc32 x) cs with
    | some e =>
      have he := hch (crc32 x)
      rw [hl] at he
      obtain ⟨hek, hh, hf, hc2⟩ := he
      rw [hek] at hh hf hc2
      have hfil : (vs ++ [x]).filter (fun y => crc32 y == crc32 x)
          = vs.filter (fun y => crc32 y == crc32 x) ++ [x] := by
        rw [List.filter_append]
        simp
      refine ⟨hek, ?_, ?_, ?_⟩
      · show ((vs ++ [x]).filter (fun y => crc32 y == e.key)).head? = some e.data
        rw [hek, hfil]
        cases hg : vs.filter (fun y => crc32 y == crc32 x) with
        | nil => rw [hg] at hh; cases hh
        | cons g0 gt =>
          rw [hg] at hh
          simp only [List.head?_cons, Option.some.injEq] at hh
          simp [hh]
      · show e.fls ++ [fletcher32 x]
            = ((vs ++ [x]).filter (fun y => crc32 y == e.key)).map fletcher32
        rw [hek, hfil, List.map_append, ← hf]
        rfl
      · show e.count + 1 = ((vs ++ [x]).filter (fun y => crc32 y == e.key)).length
        rw [hek, hfil, List.length_append]
        simp [hc2]
    | none =>
      have he := hch (crc32 x)
      rw [hl] at he
      have hfil : (vs ++ [x]).filter (fun y => crc32 y == crc32 x) = [x] := by
        rw [List.filter_append, he]
        simp
      refine ⟨rfl, ?_, ?_, ?_⟩
      · show ((vs ++ [x]).filter (fun y => crc32 y == crc32 x)).head? = some x
        rw [hfil]
        rfl
      · show ([fletcher32 x] : List Nat)
            = ((vs ++ [x]).filter (fun y => crc32 y == crc32 x)).map fletcher32
        rw [hfil]
        rfl
      · show 1 = ((vs ++ [x]).filter (fun y => crc32 y == crc32 x)).length
        rw [hfil]
        rfl
  · rw [lookup_insert_other cs c (crc32 x) x (fletcher32 x) hc]
    have hpx : (crc32 x == c) = false := by
      simp only [beq_eq_false_iff_ne, ne_eq]
      exact fun h => hc h.symm
    have hfil : (vs ++ [x]).filter (fun y => crc32 y == c)
        = vs.filter (fun y => crc32 y == c) := by
      rw [List.filter_append]
      simp [hpx]
    have he := hch c
    cases hl : lookupKey c cs with
    | some e =>
      rw [hl] at he
      obtain ⟨hek, hh, hf, hc2⟩ := he
      subst hek
      refine ⟨rfl, ?_, ?_, ?_⟩
      · show ((vs ++ [x]).filter (fun y => crc32 y == e.key)).head? = some e.data
        rw [hfil]
        exact hh
      · show e.fls = ((vs ++ [x]).filter (fun y => crc32 y == e.key)).map fletcher32
        rw [hfil]
        exact hf
      · show e.count = ((vs ++ [x]).filter (fun y => crc32 y == e.key)).length
        rw [hfil]
        exact hc2
    | none =>
      rw [hl] at he
      show (vs ++ [x]).filter (fun y => crc32 y == c) = []
      rw [hfil]
      exact he

theorem scanInv_fold : ∀ (reads : List (Option Bytes)) (vs : List Bytes) (cs : List Cand),
    scanInv vs cs →
    scanInv (vs ++ valids validate_binary_redundant reads)
      (reads.foldl
        (fun cs r =>
          match r with
          | some d =>
            if validate_binary_redundant d then insertCand (crc32 d) d (fletcher32 d) cs else cs
          | none => cs)
        cs) := by
  intro reads
  induction reads with
  | nil =>
    intro vs cs h
    simpa [valids] using h
  | cons r rest ih =>
    intro vs cs h
    cases r with
    | none =>
      rw [List.foldl_cons]
      have := ih vs cs h
      simpa [valids, List.filterMap_cons] using this
    | some d =>
      rw [List.foldl_cons]
      by_cases hv : validate_binary_redundant d = true
      · have h2 := scanInv_insert vs cs d h
        have h3 := ih (vs ++ [d]) _ h2
        simp only [hv, if_pos hv]
        have hval : valids validate_binary_redundant (some d :: rest)
            = d :: valids validate_binary_redundant rest := by
          simp [valids, List.filterMap_cons, hv]
        rw [hval]
        simpa [List.append_assoc] using h3
      · have hvf : validate_binary_redundant d = false := by
          cases hx : validate_binary_redundant d
          · rfl
          · exact absurd hx hv
        simp only [hvf, Bool.false_eq_true, if_false]
        have := ih vs cs h
        have hval : valids validate_binary_redundant (some d :: rest)
            = valids validate_binary_redundant rest := by
          simp [valids, List.filterMap_cons, hvf]
        rw [hval]
        exact this

theorem scanToyota_inv (reads : List (Option Bytes)) :
    scanInv (valids validate_binary_redundant reads) (scanToyota reads) := by
  have hbase : scanInv ([] : List Bytes) ([] : List Cand) := by
    refine ⟨by simp, ?_⟩
    intro c
    simp [lookupKey]
  have := scanInv_fold reads [] [] hbase
  simpa [scanToyota] using this

theorem scan_entry_props (reads : List (Option Bytes)) (e : Cand)
    (he : e ∈ scanToyota reads) :
    entryOk (valids validate_binary_redundant reads) e := by
  obtain ⟨hnd, hch⟩ := scanToyota_inv reads
  have hl := mem_lookupKey _ hnd e he
  have := hch e.key
  rw [hl] at this
  exact this.2

theorem valids_valid (v : Bytes → Bool) (reads : List (Option Bytes)) :
    ∀ x ∈ valids v reads, v x = true := by
  intro x hx
  exact List.of_mem_filter hx

/-- Properties of the consensus winner: stored bytes are a valid
observed content whose CRC is the group key, and the quorum holds. -/
theorem find_source_props (reads : List (Option Bytes)) (d : Bytes) (c n : Nat)
    (h : find_source_binary reads = .ok (d, c, n)) :
    validate_binary_redundant d = true ∧ crc32 d = c ∧ CONSENSUS_THRESHOLD ≤ n ∧
      d ∈ valids validate_binary_redundant reads ∧
      n ≤ (valids validate_binary_redundant reads).length := by
  obtain ⟨e, he, hd, hk, hcnt, hch, hth⟩ := find_source_sound reads d c n h
  obtain ⟨hh, hf, hc2⟩ := scan_entry_props reads e he
  rw [hd] at hh
  have hdg : d ∈ (valids validate_binary_redundant reads).filter
      (fun x => crc32 x == e.key) := by
    cases hfl : (valids validate_binary_redundant reads).filter (fun x => crc32 x == e.key) with
    | nil => rw [hfl] at hh; cases hh
    | cons a t =>
      rw [hfl] at hh
      simp only [List.head?_cons, Option.some.injEq] at hh
      rw [← hh]
      exact List.mem_cons_self a t
  have hdm := (List.mem_filter.mp hdg).1
  have hdc : (crc32 d == e.key) = true := (List.mem_filter.mp hdg).2
  refine ⟨valids_valid _ _ d hdm, ?_, ?_, hdm, ?_⟩
  · rw [← hk]
    simpa using hdc
  · rw [← hcnt]
    exact hth
  · rw [← hcnt, hc2]
    exact List.length_filter_le _ _

end ToyotaKeeper

namespace Keeper

/-- C2: a candidate group whose recorded secondary (Fletcher) digests
are not all identical is never selected: whenever the toyota
Consensus Selector returns a winner, the scanned group carrying the
winning CRC key has pairwise-identical Fletcher digests (and it is
the winner's group, meeting the quorum). -/
theorem c2_diversity (reads : List (Option Bytes)) (d : Bytes) (c n : Nat)
    (h : ToyotaKeeper.find_source_binary reads = .ok (d, c, n)) :
    ∀ e ∈ ToyotaKeeper.scanToyota reads, e.key = c →
      ToyotaKeeper.chainEq e.fls = true ∧ e.data = d ∧ e.count = n ∧
        CONSENSUS_THRESHOLD ≤ n := by
  obtain ⟨e0, he0, hd, hk, hcnt, hch, hth⟩ := ToyotaKeeper.find_source_sound reads d c n h
  intro e he hek
  obtain ⟨hnd, _⟩ := ToyotaKeeper.scanToyota_inv reads
  have h1 := ToyotaKeeper.mem_lookupKey _ hnd e0 he0
  have h2 := ToyotaKeeper.mem_lookupKey _ hnd e he
  rw [hk] at h1
  rw [hek] at h2
  rw [h1] at h2
  injection h2 with h2
  subst h2
  exact ⟨hch, hd, hcnt, hcnt ▸ hth⟩

/-- C2 witness: the consensus winner of the 3-A scenario carries a
Fletcher-consistent group of support 3. -/
theorem c2_witness :
    ToyotaKeeper.chainEq
        (⟨crc32 blobA, blobA,
          [fletcher32 blobA, fletcher32 blobA, fletcher32 blobA], 3⟩ : ToyotaKeeper.Cand).fls
        = true ∧
    (⟨crc32 blobA, blobA,
      [fletcher32 blobA, fletcher32 blobA, fletcher32 blobA], 3⟩ : ToyotaKeeper.Cand).data
        = blobA ∧
    (⟨crc32 blobA, blobA,
      [fletcher32 blobA, fletcher32 blobA, fletcher32 blobA], 3⟩ : ToyotaKeeper.Cand).count
        = 3 ∧
    CONSENSUS_THRESHOLD ≤ 3 :=
  c2_diversity (mRep.locs.map Loc.content) blobA (crc32 blobA) 3 (by decide)
    ⟨crc32 blobA, blobA, [fletcher32 blobA, fletcher32 blobA, fletcher32 blobA], 3⟩
    (by decide) rfl

/-- C3: when candidates exist but no group's support reaches the
quorum threshold, check_and_repair (toyota) fails with the
no-consensus error and performs zero repairs: the file system
(locations), the ledger and the repair counter are returned exactly
as they were. -/
theorem c3_no_quorum (m : GuardianState) (l : List Nat)
    (hp : ToyotaKeeper.preflight_check m = .ok ())
    (hne : ToyotaKeeper.scanToyota (m.locs.map Loc.content) ≠ [])
    (hall : ∀ e ∈ ToyotaKeeper.scanToyota (m.locs.map Loc.content),
      e.count < CONSENSUS_THRESHOLD) :
    ToyotaKeeper.check_and_repair m l = (.error .noConsensus, m, l) := by
  have hfs : ToyotaKeeper.find_source_binary (m.locs.map Loc.content)
      = .error .noConsensus := by
    unfold ToyotaKeeper.find_source_binary
    dsimp only
    rw [if_neg (by simp [hne]), ToyotaKeeper.selectBest_none _ _ _ hall]
  unfold ToyotaKeeper.check_and_repair
  rw [hp]
  show ToyotaKeeper.repairPhase m l = _
  unfold ToyotaKeeper.repairPhase
  rw [hfs]

/-- C3 witness: the spec's 2-A/2-B/1-missing scenario with quorum 3:
the cycle reports NoConsensus and changes nothing. -/
theorem c3_witness :
    ToyotaKeeper.check_and_repair mSplit ledger5 = (.error .noConsensus, mSplit, ledger5) :=
  c3_no_quorum mSplit ledger5 (by decide) (by decide) (by decide)

end Keeper

namespace Keeper

theorem length_filter_disjoint (l : List Bytes) (p q : Bytes → Bool)
    (h : ∀ x ∈ l, p x = true → q x = true → False) :
    (l.filter p).length + (l.filter q).length ≤ l.length := by
  induction l with
  | nil => simp
  | cons a t ih =>
    have iht := ih fun x hx => h x (List.mem_cons_of_mem _ hx)
    cases hp : p a with
    | true =>
      have hq : q a = false := by
        cases hx : q a
        · rfl
        · exact (h a (by simp) hp hx).elim
      have hlen : (a :: t).length = t.length + 1 := rfl
      simp only [List.filter_cons, hp, hq, Bool.false_eq_true, if_true, if_false,
        List.length_cons]
      omega
    | false =>
      cases hq : q a with
      | true =>
        have hlen : (a :: t).length = t.length + 1 := rfl
        simp only [List.filter_cons, hp, hq, Bool.false_eq_true, if_true, if_false,
          List.length_cons]
        omega
      | false =>
        have hlen : (a :: t).length = t.length + 1 := rfl
        simp only [List.filter_cons, hp, hq, Bool.false_eq_true, if_false]
        omega

theorem filter_self_elem (l : List Bytes) (d : Bytes) :
    ∀ x ∈ l.filter (fun y => y == d), x = d := by
  intro x hx
  have := (List.mem_filter.mp hx).2
  simpa using this

end Keeper

namespace ToyotaKeeper

open Keeper

theorem chainEq_of_all (fls : List Nat) (v : Nat) (h : ∀ a ∈ fls, a = v) :
    chainEq fls = true := by
  induction fls with
  | nil => rfl
  | cons a t ih =>
    cases t with
    | nil => rfl
    | cons b t2 =>
      have hab : (a == b) = true := by
        rw [h a (by simp), h b (by simp)]
        simp
      unfold chainEq
      rw [hab]
      simp only [Bool.true_and]
      exact ih fun x hx => h x (List.mem_cons_of_mem _ hx)

/-- Majority quorum correctness for the toyota Consensus Selector:
if the valids holding exactly the bytes d form a strict majority, the
majority meets the quorum, and no other valid content collides with
d's CRC32, then d's group is chosen. -/
theorem find_source_majority (reads : List (Option Bytes)) (d : Bytes)
    (hmaj : 2 * ((valids validate_binary_redundant reads).filter (fun x => x == d)).length
        > (valids validate_binary_redundant reads).length)
    (hth : CONSENSUS_THRESHOLD
        ≤ ((valids validate_binary_redundant reads).filter (fun x => x == d)).length)
    (hinj : ∀ x ∈ valids validate_binary_redundant reads, crc32 x = crc32 d → x = d) :
    find_source_binary reads = .ok (d, crc32 d,
      ((valids validate_binary_redundant reads).filter (fun x => x == d)).length) := by
  have hfe : (valids validate_binary_redundant reads).filter (fun x => crc32 x == crc32 d)
      = (valids validate_binary_redundant reads).filter (fun x => x == d) := by
    apply List.filter_congr
    intro x hx
    by_cases hxd : x = d
    · subst hxd
      simp
    · have h1 : (x == d) = false := by simpa using hxd
      have h2 : (crc32 x == crc32 d) = false := by
        simp only [beq_eq_false_iff_ne, ne_eq]
        intro hcc
        exact hxd (hinj x hx hcc)
      rw [h1, h2]
  have hmpos : 1 ≤ ((valids validate_binary_redundant reads).filter (fun x => x == d)).length := by
    unfold CONSENSUS_THRESHOLD at hth
    omega
  obtain ⟨hnd, hch⟩ := scanToyota_inv reads
  have hlk := hch (crc32 d)
  cases hl : lookupKey (crc32 d) (scanToyota reads) with
  | none =>
    rw [hl] at hlk
    rw [hfe] at hlk
    rw [hlk] at hmpos
    exact absurd hmpos (by simp)
  | some e =>
    rw [hl] at hlk
    obtain ⟨hek, hh, hf, hc2⟩ := hlk
    rw [hek, hfe] at hh hf hc2
    have hemem := (lookupKey_mem _ _ _ hl).1
    have hed : e.data = d := by
      cases hg : (valids validate_binary_redundant reads).filter (fun x => x == d) with
      | nil => rw [hg] at hh; cases hh
      | cons g0 gt =>
        rw [hg] at hh
        simp only [List.head?_cons, Option.some.injEq] at hh
        have := filter_self_elem _ d g0 (by rw [hg]; exact List.mem_cons_self g0 gt)
        rw [← hh, this]
    have hech : chainEq e.fls = true := by
      apply chainEq_of_all e.fls (fletcher32 d)
      intro a ha
      rw [hf] at ha
      obtain ⟨y, hy, hya⟩ := List.mem_map.mp ha
      rw [← hya, filter_self_elem _ d y hy]
    have hothers : ∀ e' ∈ scanToyota reads, e' = e ∨ e'.count < e.count := by
      intro e' he'
      by_cases hee : e' = e
      · exact Or.inl hee
      · right
        have hk' : e'.key ≠ crc32 d := by
          intro hx
          have := mem_lookupKey _ hnd e' he'
          rw [hx, hl] at this
          injection this with this
          exact hee this.symm
        have hlk' := hch e'.key
        rw [mem_lookupKey _ hnd e' he'] at hlk'
        obtain ⟨_, _, _, hc2'⟩ := hlk'
        have hdisj := length_filter_disjoint (valids validate_binary_redundant reads)
          (fun x => crc32 x == e'.key) (fun x => x == d) ?_
        · rw [hc2']
          omega
        · intro x hx hpx hqx
          have hx1 : x = d := by simpa using hqx
          subst hx1
          have hx2 : crc32 x = e'.key := by simpa using hpx
          exact hk' hx2.symm
    unfold find_source_binary
    dsimp only
    rw [if_neg (by simp; intro hemp; rw [hemp] at hemem; cases hemem)]
    rw [selectBest_picks (scanToyota reads) e hemem hech (by rw [hc2]; exact hth) hothers none 0
      (by rw [hc2]; omega)]
    rw [hed, hek, hc2]

end ToyotaKeeper

namespace SpacexKeeper

open Keeper

theorem lookupKey_memS : ∀ (cs : List Cand) (c : Nat) (e : Cand),
    lookupKey c cs = some e → e ∈ cs ∧ e.key = c := by
  intro cs
  induction cs with
  | nil => intro c e h; cases h
  | cons a rest ih =>
    intro c e h
    unfold lookupKey at h
    by_cases hk : a.key = c
    · rw [if_pos hk] at h
      injection h with h
      subst h
      exact ⟨by simp, hk⟩
    · rw [if_neg hk] at h
      obtain ⟨h1, h2⟩ := ih c e h
      exact ⟨List.mem_cons_of_mem _ h1, h2⟩

theorem mem_lookupKeyS : ∀ (cs : List Cand), (cs.map Cand.key).Nodup →
    ∀ e ∈ cs, lookupKey e.key cs = some e := by
  intro cs
  induction cs with
  | nil => intro _ e he; cases he
  | cons a rest ih =>
    intro hnd e he
    rw [List.map_cons, List.nodup_cons] at hnd
    rcases List.mem_cons.mp he with rfl | hr
    · unfold lookupKey
      rw [if_pos rfl]
    · have hne : a.key ≠ e.key := by
        intro hx
        exact hnd.1 (hx ▸ List.mem_map_of_mem Cand.key hr)
      unfold lookupKey
      rw [if_neg hne]
      exact ih hnd.2 e hr

theorem lookup_insert_selfS : ∀ (cs : List Cand) (c : Nat) (d : Bytes),
    lookupKey c (insertCand c d cs)
      = some (match lookupKey c cs with
              | some e => { e with count := e.count + 1 }
              | none => ⟨c, d, 1⟩) := by
  intro cs
  induction cs with
  | nil => intro c d; simp [insertCand, lookupKey]
  | cons a rest ih =>
    intro c d
    by_cases hk : a.key = c
    · unfold insertCand
      rw [if_pos hk]
      unfold lookupKey
      rw [if_pos hk, if_pos hk]
    · unfold insertCand
      rw [if_neg hk]
      unfold lookupKey
      rw [if_neg hk, if_neg hk]
      exact ih c d

theorem lookup_insert_otherS : ∀ (cs : List Cand) (c' c : Nat) (d : Bytes),
    c' ≠ c → lookupKey c' (insertCand c d cs) = lookupKey c' cs := by
  intro cs
  induction cs with
  | nil =>
    intro c' c d hne
    have hcc : ¬c = c' := fun h => hne h.symm
    simp [insertCand, lookupKey, hcc]
  | cons a rest ih =>
    intro c' c d hne
    by_cases hk : a.key = c
    · unfold insertCand
      rw [if_pos hk]
      unfold lookupKey
      by_cases hk' : a.key = c'
      · exact absurd (hk'.symm.trans hk) hne
      · rw [if_neg hk', if_neg hk']
    · unfold insertCand
      rw [if_neg hk]
      unfold lookupKey
      by_cases hk' : a.key = c'
      · rw [if_pos hk', if_pos hk']
      · rw [if_neg hk', if_neg hk']
        exact ih c' c d hne

theorem insert_keysS : ∀ (cs : List Cand) (c : Nat) (d : Bytes),
    (insertCand c d cs).map Cand.key
      = if c ∈ cs.map Cand.key then cs.map Cand.key else cs.map Cand.key ++ [c] := by
  intro cs
  induction cs with
  | nil => intro c d; simp [insertCand]
  | cons a rest ih =>
    intro c d
    by_cases hk : a.key = c
    · unfold insertCand
      rw [if_pos hk]
      simp [hk]
    · unfold insertCand
      rw [if_neg hk]
      rw [List.map_cons, List.map_cons, ih c d]
      by_cases hm : c ∈ rest.map Cand.key
      · rw [if_pos hm, if_pos (by simp [hm])]
      · rw [if_neg hm,
          if_neg (by simp only [List.mem_cons]; push_neg; exact ⟨fun h => hk h.symm, hm⟩)]
        rfl

theorem insert_nodupS (cs : List Cand) (c : Nat) (d : Bytes)
    (h : (cs.map Cand.key).Nodup) : ((insertCand c d cs).map Cand.key).Nodup := by
  rw [insert_keysS]
  by_cases hm : c ∈ cs.map Cand.key
  · rwa [if_pos hm]
  · rw [if_neg hm]
    simp [List.nodup_append, h, hm]

theorem scanInv_insertS (vs : List Bytes) (cs : List Cand) (x : Bytes)
    (h : scanInv vs cs) :
    scanInv (vs ++ [x]) (insertCand (crc32 x) x cs) := by
  obtain ⟨hnd, hch⟩ := h
  refine ⟨insert_nodupS cs _ x hnd, ?_⟩
  intro c
  by_cases hc : c = crc32 x
  · subst hc
    rw [lookup_insert_selfS]
    cases hl : lookupKey (crc32 x) cs with
    | some e =>
      have he := hch (crc32 x)
      rw [hl] at he
      obtain ⟨hek, hh, hc2⟩ := he
      rw [hek] at hh hc2
      have hfil : (vs ++ [x]).filter (fun y => crc32 y == crc32 x)
          = vs.filter (fun y => crc32 y == crc32 x) ++ [x] := by
        rw [List.filter_append]
        simp
      refine ⟨hek, ?_, ?_⟩
      · show ((vs ++ [x]).filter (fun y => crc32 y == e.key)).head? = some e.data
        rw [hek, hfil]
        cases hg : vs.filter (fun y => crc32 y == crc32 x) with
        | nil => rw [hg] at hh; cases hh
        | cons g0 gt =>
          rw [hg] at hh
          simp only [List.head?_cons, Option.some.injEq] at hh
          simp [hh]
      · show e.count + 1 = ((vs ++ [x]).filter (fun y => crc32 y == e.key)).length
        rw [hek, hfil, List.length_append]
        simp [hc2]
    | none =>
      have he := hch (crc32 x)
      rw [hl] at he
      have hfil : (vs ++ [x]).filter (fun y => crc32 y == crc32 x) = [x] := by
        rw [List.filter_append, he]
        simp
      refine ⟨rfl, ?_, ?_⟩
      · show ((vs ++ [x]).filter (fun y => crc32 y == crc32 x)).head? = some x
        rw [hfil]
        rfl
      · show 1 = ((vs ++ [x]).filter (fun y => crc32 y == crc32 x)).length
        rw [hfil]
        rfl
  · rw [lookup_insert_otherS cs c (crc32 x) x hc]
    have hpx : (crc32 x == c) = false := by
      simp only [beq_eq_false_iff_ne, ne_eq]
      exact fun h => hc h.symm
    have hfil : (vs ++ [x]).filter (fun y => crc32 y == c)
        = vs.filter (fun y => crc32 y == c) := by
      rw [List.filter_append]
      simp [hpx]
    have he := hch c
    cases hl : lookupKey c cs with
    | some e =>
      rw [hl] at he
      obtain ⟨hek, hh, hc2⟩ := he
      subst hek
      refine ⟨rfl, ?_, ?_⟩
      · show ((vs ++ [x]).filter (fun y => crc32 y == e.key)).head? = some e.data
        rw [hfil]
        exact hh
      · show e.count = ((vs ++ [x]).filter (fun y => crc32 y == e.key)).length
        rw [hfil]
        exact hc2
    | none =>
      rw [hl] at he
      show (vs ++ [x]).filter (fun y => crc32 y == c) = []
      rw [hfil]
      exact he

theorem scanInv_foldS : ∀ (reads : List (Option Bytes)) (vs : List Bytes) (cs : List Cand),
    scanInv vs cs →
    scanInv (vs ++ valids validate_binary reads)
      (reads.foldl
        (fun cs r =>
          match r with
          | some d => if validate_binary d then insertCand (crc32 d) d cs else cs
          | none => cs)
        cs) := by
  intro reads
  induction reads with
  | nil =>
    intro vs cs h
    simpa [valids] using h
  | cons r rest ih =>
    intro vs cs h
    cases r with
    | none =>
      rw [List.foldl_cons]
      have := ih vs cs h
      simpa [valids, List.filterMap_cons] using this
    | some d =>
      rw [List.foldl_cons]
      by_cases hv : validate_binary d = true
      · have h2 := scanInv_insertS vs cs d h
        have h3 := ih (vs ++ [d]) _ h2
        simp only [hv, if_pos hv]
        have hval : valids validate_binary (some d :: rest)
            = d :: valids validate_binary rest := by
          simp [valids, List.filterMap_cons, hv]
        rw [hval]
        simpa [List.append_assoc] using h3
      · have hvf : validate_binary d = false := by
          cases hx : validate_binary d
          · rfl
          · exact absurd hx hv
        simp only [hvf, Bool.false_eq_true, if_false]
        have := ih vs cs h
        have hval : valids validate_binary (some d :: rest)
            = valids validate_binary rest := by
          simp [valids, List.filterMap_cons, hvf]
        rw [hval]
        exact this

theorem scanSpacex_inv (reads : List (Option Bytes)) :
    scanInv (valids validate_binary reads) (scanSpacex reads) := by
  have hbase : scanInv ([] : List Bytes) ([] : List Cand) := by
    refine ⟨by simp, ?_⟩
    intro c
    simp [lookupKey]
  have := scanInv_foldS reads [] [] hbase
  simpa [scanSpacex] using this

theorem maxByCount_picks : ∀ (cs : List Cand) (x t : Cand),
    (x = t ∨ x.count < t.count) → (t ∈ cs ∨ x = t) →
    (∀ e ∈ cs, e = t ∨ e.count < t.count) →
    maxByCount x cs = t := by
  intro cs
  induction cs with
  | nil =>
    intro x t hx ht _
    rcases ht with ht | ht
    · cases ht
    · rw [ht]
      rfl
  | cons y rest ih =>
    intro x t hx ht hall
    have hy := hall y (by simp)
    have hrest : ∀ e ∈ rest, e = t ∨ e.count < t.count :=
      fun e he => hall e (List.mem_cons_of_mem _ he)
    unfold maxByCount
    by_cases hc : x.count ≤ y.count
    · rw [if_pos hc]
      apply ih y t hy ?_ hrest
      rcases hy with rfl | hylt
      · exact Or.inr rfl
      · rcases hx with rfl | hxlt
        · omega
        · rcases ht with ht | rfl
          · rcases List.mem_cons.mp ht with rfl | htr
            · omega
            · exact Or.inl htr
          · omega
    · rw [if_neg hc]
      apply ih x t hx ?_ hrest
      rcases ht with ht | rfl
      · rcases List.mem_cons.mp ht with rfl | htr
        · rcases hx with rfl | hxlt
          · exact Or.inr rfl
          · omega
        · exact Or.inl htr
      · exact Or.inr rfl

/-- Majority quorum correctness for the spacex Consensus Selector:
with a strict majority of the valids on d and no colliding CRC among
the other valids, d is returned (no quorum threshold here). -/
theorem find_source_majorityS (reads : List (Option Bytes)) (d : Bytes)
    (hmaj : 2 * ((valids validate_binary reads).filter (fun x => x == d)).length
        > (valids validate_binary reads).length)
    (hinj : ∀ x ∈ valids validate_binary reads, crc32 x = crc32 d → x = d) :
    find_source_binary reads = .ok (d, crc32 d) := by
  have hfe : (valids validate_binary reads).filter (fun x => crc32 x == crc32 d)
      = (valids validate_binary reads).filter (fun x => x == d) := by
    apply List.filter_congr
    intro x hx
    by_cases hxd : x = d
    · subst hxd
      simp
    · have h1 : (x == d) = false := by simpa using hxd
      have h2 : (crc32 x == crc32 d) = false := by
        simp only [beq_eq_false_iff_ne, ne_eq]
        intro hcc
        exact hxd (hinj x hx hcc)
      rw [h1, h2]
  have hmpos : 1 ≤ ((valids validate_binary reads).filter (fun x => x == d)).length := by
    have := List.length_filter_le (fun x => x == d) (valids validate_binary reads)
    omega
  obtain ⟨hnd, hch⟩ := scanSpacex_inv reads
  have hlk := hch (crc32 d)
  cases hl : lookupKey (crc32 d) (scanSpacex reads) with
  | none =>
    rw [hl] at hlk
    rw [hfe] at hlk
    rw [hlk] at hmpos
    exact absurd hmpos (by simp)
  | some e =>
    rw [hl] at hlk
    obtain ⟨hek, hh, hc2⟩ := hlk
    rw [hek, hfe] at hh hc2
    have hemem := (lookupKey_memS _ _ _ hl).1
    have hed : e.data = d := by
      cases hg : (valids validate_binary reads).filter (fun x => x == d) with
      | nil => rw [hg] at hh; cases hh
      | cons g0 gt =>
        rw [hg] at hh
        simp only [List.head?_cons, Option.some.injEq] at hh
        have := filter_self_elem _ d g0 (by rw [hg]; exact List.mem_cons_self g0 gt)
        rw [← hh, this]
    have hothers : ∀ e' ∈ scanSpacex reads, e' = e ∨ e'.count < e.count := by
      intro e' he'
      by_cases hee : e' = e
      · exact Or.inl hee
      · right
        have hk' : e'.key ≠ crc32 d := by
          intro hx
          have := mem_lookupKeyS _ hnd e' he'
          rw [hx, hl] at this
          injection this with this
          exact hee this.symm
        have hlk' := hch e'.key
        rw [mem_lookupKeyS _ hnd e' he'] at hlk'
        obtain ⟨_, _, hc2'⟩ := hlk'
        have hdisj := length_filter_disjoint (valids validate_binary reads)
          (fun x => crc32 x == e'.key) (fun x => x == d) ?_
        · rw [hc2']
          omega
        · intro x hx hpx hqx
          have hx1 : x = d := by simpa using hqx
          subst hx1
          have hx2 : crc32 x = e'.key := by simpa using hpx
          exact hk' hx2.symm
    unfold find_source_binary
    cases hscan : scanSpacex reads with
    | nil => rw [hscan] at hemem; cases hemem
    | cons c0 crest =>
      rw [hscan] at hemem hothers
      have hsel : maxByCount c0 crest = e := by
        apply maxByCount_picks crest c0 e (hothers c0 (by simp)) ?_ ?_
        · rcases List.mem_cons.mp hemem with rfl | hr
          · exact Or.inr rfl
          · exact Or.inl hr
        · exact fun e' he' => hothers e' (List.mem_cons_of_mem _ he')
      dsimp only
      rw [hsel, hed, hek]

end SpacexKeeper

namespace Keeper

/-- C1 counterexample: 3 valid replicas, 2 of which (a strict
majority, 2·2 > 3) hold identical bytes blobA — yet the toyota
find_source_binary reports NoConsensus because the majority count 2
is below CONSENSUS_THRESHOLD = 3, instead of returning blobA. -/
theorem c1_counterexample :
    2 * ((valids validate_binary_redundant readsAAB).filter (fun x => x == blobA)).length
        > (valids validate_binary_redundant readsAAB).length ∧
    ToyotaKeeper.find_source_binary readsAAB = .error .noConsensus := by decide

/-- C1 amended: for a scan whose valid replicas hold bytes d in
strict majority, find_source_binary returns exactly d — in the spacex
variant whenever no other valid content collides with d's CRC32, and
in the toyota variant additionally only when the majority count
reaches CONSENSUS_THRESHOLD (3), in which case the winner carries the
majority's support count. -/
theorem c1_amended :
    (∀ (reads : List (Option Bytes)) (d : Bytes),
      2 * ((valids validate_binary reads).filter (fun x => x == d)).length
          > (valids validate_binary reads).length →
      (∀ x ∈ valids validate_binary reads, crc32 x = crc32 d → x = d) →
      SpacexKeeper.find_source_binary reads = .ok (d, crc32 d)) ∧
    (∀ (reads : List (Option Bytes)) (d : Bytes),
      2 * ((valids validate_binary_redundant reads).filter (fun x => x == d)).length
          > (valids validate_binary_redundant reads).length →
      CONSENSUS_THRESHOLD
          ≤ ((valids validate_binary_redundant reads).filter (fun x => x == d)).length →
      (∀ x ∈ valids validate_binary_redundant reads, crc32 x = crc32 d → x = d) →
      ToyotaKeeper.find_source_binary reads
          = .ok (d, crc32 d,
              ((valids validate_binary_redundant reads).filter (fun x => x == d)).length)) :=
  ⟨fun reads d hmaj hinj => SpacexKeeper.find_source_majorityS reads d hmaj hinj,
   fun reads d hmaj hth hinj => ToyotaKeeper.find_source_majority reads d hmaj hth hinj⟩

/-- C1 witness: the amended claim at concrete scans — spacex on the
2-of-3 majority, toyota on the 3-of-4 majority of the mRep scenario. -/
theorem c1_witness :
    SpacexKeeper.find_source_binary readsAAB = .ok (blobA, crc32 blobA) ∧
    ToyotaKeeper.find_source_binary (mRep.locs.map Loc.content)
        = .ok (blobA, crc32 blobA, 3) := by
  constructor
  · exact c1_amended.1 readsAAB blobA (by decide) (by decide)
  · have h := c1_amended.2 (mRep.locs.map Loc.content) blobA (by decide) (by decide) (by decide)
    rw [h]
    decide

end Keeper

namespace Keeper

theorem ledger_getD_zero (ledger : List Nat) : ledger.getD 0 0 = ledger.headD 0 := by
  cases ledger <;> rfl

theorem ledger_getD_succ (ledger : List Nat) (i : Nat) :
    ledger.tail.getD i 0 = ledger.getD (i + 1) 0 := by
  cases ledger <;> rfl

theorem repairLoop_length (v : Bytes → Bool) (s : Bytes) (c : Nat) :
    ∀ (locs : List Loc) (ledger : List Nat),
      (repairLoop v s c locs ledger).1.length = locs.length ∧
      (repairLoop v s c locs ledger).2.1.length = locs.length := by
  intro locs
  induction locs with
  | nil => intro ledger; exact ⟨rfl, rfl⟩
  | cons loc rest ih =>
    intro ledger
    unfold repairLoop
    exact ⟨by simp [(ih ledger.tail).1], by simp [(ih ledger.tail).2]⟩

theorem repairLoop_get (v : Bytes → Bool) (s : Bytes) (c : Nat) :
    ∀ (locs : List Loc) (ledger : List Nat) (i : Nat) (loc : Loc),
      locs[i]? = some loc →
      (repairLoop v s c locs ledger).1[i]? = some (locStep v s c loc (ledger.getD i 0)).1 ∧
      (repairLoop v s c locs ledger).2.1[i]?
          = some (locStep v s c loc (ledger.getD i 0)).2.1 := by
  intro locs
  induction locs with
  | nil => intro ledger i loc h; exact absurd h (by simp)
  | cons a rest ih =>
    intro ledger i loc h
    cases i with
    | zero =>
      rw [List.getElem?_cons_zero] at h
      injection h with h
      subst h
      unfold repairLoop
      rw [ledger_getD_zero]
      exact ⟨by simp, by simp⟩
    | succ j =>
      rw [List.getElem?_cons_succ] at h
      have := ih ledger.tail j loc h
      unfold repairLoop
      rw [← ledger_getD_succ]
      exact ⟨by simpa using this.1, by simpa using this.2⟩

theorem locStep_cases (v : Bytes → Bool) (s : Bytes) (c : Nat) (loc : Loc) (a : Nat) :
    ((MAX_REPAIR_ATTEMPTS ≤ a ∨ loc.parentOk = false ∨ needs_repair v c loc.content = false) ∧
      locStep v s c loc a = (loc, a, 0, 0))
    ∨ (a < MAX_REPAIR_ATTEMPTS ∧ loc.parentOk = true ∧ needs_repair v c loc.content = true ∧
        loc.writable = true ∧
        locStep v s c loc a = ({ loc with content := some s }, 0, 1, 0))
    ∨ (a < MAX_REPAIR_ATTEMPTS ∧ loc.parentOk = true ∧ needs_repair v c loc.content = true ∧
        loc.writable = false ∧ locStep v s c loc a = (loc, a + 1, 0, 1)) := by
  by_cases h1 : MAX_REPAIR_ATTEMPTS ≤ a
  · exact Or.inl ⟨Or.inl h1, by unfold locStep; rw [if_pos h1]⟩
  · cases hp : loc.parentOk with
    | false =>
      refine Or.inl ⟨Or.inr (Or.inl rfl), ?_⟩
      unfold locStep
      rw [if_neg h1]
      simp [hp]
    | true =>
      cases hn : needs_repair v c loc.content with
      | false =>
        refine Or.inl ⟨Or.inr (Or.inr rfl), ?_⟩
        unfold locStep
        rw [if_neg h1]
        simp [hp, hn]
      | true =>
        cases hw : loc.writable with
        | true =>
          refine Or.inr (Or.inl ⟨by omega, rfl, rfl, rfl, ?_⟩)
          unfold locStep
          rw [if_neg h1]
          simp [hp, hn, hw]
        | false =>
          refine Or.inr (Or.inr ⟨by omega, rfl, rfl, rfl, ?_⟩)
          unfold locStep
          rw [if_neg h1]
          simp [hp, hn, hw]

theorem locStep_ledger_le (v : Bytes → Bool) (s : Bytes) (c : Nat) (loc : Loc) (a : Nat)
    (h : a ≤ MAX_REPAIR_ATTEMPTS) :
    (locStep v s c loc a).2.1 ≤ MAX_REPAIR_ATTEMPTS := by
  rcases locStep_cases v s c loc a with ⟨_, he⟩ | ⟨_, _, _, _, he⟩ | ⟨hlt, _, _, _, he⟩ <;>
    rw [he]
  · exact h
  · exact Nat.zero_le _
  · show a + 1 ≤ MAX_REPAIR_ATTEMPTS
    omega

theorem locStep_skip (v : Bytes → Bool) (s : Bytes) (c : Nat) (loc : Loc) (a : Nat)
    (h : MAX_REPAIR_ATTEMPTS ≤ a) : locStep v s c loc a = (loc, a, 0, 0) := by
  unfold locStep
  rw [if_pos h]

theorem locStep_frozen (v : Bytes → Bool) (s : Bytes) (c : Nat) (loc : Loc) (a : Nat)
    (h : loc.writable = false) :
    (locStep v s c loc a).1 = loc ∧
    ((locStep v s c loc a).2.1 = a ∨
      (a < MAX_REPAIR_ATTEMPTS ∧ (locStep v s c loc a).2.1 = a + 1)) := by
  rcases locStep_cases v s c loc a with ⟨_, he⟩ | ⟨_, _, _, hw, he⟩ | ⟨hlt, _, _, _, he⟩
  · rw [he]
    exact ⟨rfl, Or.inl rfl⟩
  · rw [h] at hw
    cases hw
  · rw [he]
    exact ⟨rfl, Or.inr ⟨hlt, rfl⟩⟩

theorem locStep_changed (v : Bytes → Bool) (s : Bytes) (c : Nat) (loc : Loc) (a : Nat)
    (h : (locStep v s c loc a).1 ≠ loc) :
    (locStep v s c loc a).2.1 = 0 ∧ (locStep v s c loc a).1 = { loc with content := some s } := by
  rcases locStep_cases v s c loc a with ⟨_, he⟩ | ⟨_, _, _, _, he⟩ | ⟨_, _, _, _, he⟩
  · rw [he] at h
    exact absurd rfl h
  · rw [he]
    exact ⟨rfl, rfl⟩
  · rw [he] at h
    exact absurd rfl h

theorem repairLoop_ledger_le (v : Bytes → Bool) (s : Bytes) (c : Nat)
    (locs : List Loc) (ledger : List Nat) (i : Nat) (h : ledger.getD i 0 ≤ MAX_REPAIR_ATTEMPTS) :
    (repairLoop v s c locs ledger).2.1.getD i 0 ≤ MAX_REPAIR_ATTEMPTS := by
  by_cases hi : i < locs.length
  · obtain ⟨loc, hloc⟩ : ∃ loc, locs[i]? = some loc := by
      rw [List.getElem?_eq_getElem hi]
      exact ⟨_, rfl⟩
    have hg := (repairLoop_get v s c locs ledger i loc hloc).2
    rw [List.getD_eq_getElem?_getD, hg]
    exact locStep_ledger_le v s c loc _ h
  · have hlen : (repairLoop v s c locs ledger).2.1.length ≤ i := by
      rw [(repairLoop_length v s c locs ledger).2]
      omega
    rw [List.getD_eq_default _ _ hlen]
    exact Nat.zero_le _

end Keeper

namespace ToyotaKeeper

open Keeper

theorem cycle_ledger_le (m : GuardianState) (l : List Nat) (i : Nat)
    (h : l.getD i 0 ≤ MAX_REPAIR_ATTEMPTS) :
    (check_and_repair m l).2.2.getD i 0 ≤ MAX_REPAIR_ATTEMPTS := by
  rcases cycle_path m l with ⟨_, hq⟩ | ⟨_, _, _, hq⟩ | ⟨_, m', ⟨hlocs, _, _, _⟩, hq⟩
  · rw [hq]; exact h
  · rw [hq]; exact h
  · rw [hq]
    rcases repairPhase_path m' l with ⟨_, _, h2⟩ | ⟨d, c, n, _, _, _, hled, _⟩
    · rw [h2]; exact h
    · rw [hled]
      exact repairLoop_ledger_le _ _ _ _ _ _ h

theorem run_ledger_le (fuel : Nat) :
    ∀ (m : GuardianState) (l : List Nat) (i : Nat), l.getD i 0 ≤ MAX_REPAIR_ATTEMPTS →
      (run_service fuel m l).2.2.getD i 0 ≤ MAX_REPAIR_ATTEMPTS := by
  induction fuel with
  | zero => intro m l i h; exact h
  | succ k ih =>
    intro m l i h
    by_cases hstop : (check_and_repair m l).1 = .error .memoryCorruption
        ∨ 3 ≤ (check_and_repair m l).2.1.keeperState
    · rw [run_service_stop k m l hstop]
      exact cycle_ledger_le m l i h
    · rw [run_service_go k m l hstop]
      exact ih _ _ i (cycle_ledger_le m l i h)

theorem cycle_skip (m : GuardianState) (l : List Nat) (i : Nat) (loc : Loc)
    (hloc : m.locs[i]? = some loc) (ha : MAX_REPAIR_ATTEMPTS ≤ l.getD i 0) :
    (check_and_repair m l).2.1.locs[i]? = some loc ∧
    (check_and_repair m l).2.2.getD i 0 = l.getD i 0 := by
  rcases cycle_path m l with ⟨_, hq⟩ | ⟨_, _, _, hq⟩ | ⟨_, m', ⟨hlocs, _, _, _⟩, hq⟩
  · rw [hq]; exact ⟨hloc, rfl⟩
  · rw [hq]; exact ⟨hloc, rfl⟩
  · rw [hq]
    rcases repairPhase_path m' l with ⟨_, h2, h3⟩ | ⟨d, c, n, _, _, hlocs', hled, _⟩
    · rw [h2, h3]
      exact ⟨hlocs ▸ hloc, rfl⟩
    · have hml : m'.locs[i]? = some loc := by rw [hlocs]; exact hloc
      obtain ⟨hg1, hg2⟩ := repairLoop_get validate_binary_redundant d c m'.locs l i loc hml
      constructor
      · rw [hlocs', hg1, locStep_skip _ _ _ _ _ ha]
      · rw [hled, List.getD_eq_getElem?_getD, hg2, locStep_skip _ _ _ _ _ ha]
        rfl

theorem cycle_frozen (m : GuardianState) (l : List Nat) (i : Nat) (loc : Loc)
    (hloc : m.locs[i]? = some loc) (hw : loc.writable = false) :
    (check_and_repair m l).2.1.locs[i]? = some loc ∧
    ((check_and_repair m l).2.2.getD i 0 = l.getD i 0 ∨
      (l.getD i 0 < MAX_REPAIR_ATTEMPTS ∧
        (check_and_repair m l).2.2.getD i 0 = l.getD i 0 + 1)) := by
  rcases cycle_path m l with ⟨_, hq⟩ | ⟨_, _, _, hq⟩ | ⟨_, m', ⟨hlocs, _, _, _⟩, hq⟩
  · rw [hq]; exact ⟨hloc, Or.inl rfl⟩
  · rw [hq]; exact ⟨hloc, Or.inl rfl⟩
  · rw [hq]
    rcases repairPhase_path m' l with ⟨_, h2, h3⟩ | ⟨d, c, n, _, _, hlocs', hled, _⟩
    · rw [h2, h3]
      exact ⟨hlocs ▸ hloc, Or.inl rfl⟩
    · have hml : m'.locs[i]? = some loc := by rw [hlocs]; exact hloc
      obtain ⟨hg1, hg2⟩ := repairLoop_get validate_binary_redundant d c m'.locs l i loc hml
      obtain ⟨hs1, hs2⟩ := locStep_frozen validate_binary_redundant d c loc (l.getD i 0) hw
      constructor
      · rw [hlocs', hg1, hs1]
      · rw [hled, List.getD_eq_getElem?_getD, hg2]
        rcases hs2 with hs2 | ⟨hlt, hs2⟩
        · exact Or.inl (by rw [hs2]; rfl)
        · exact Or.inr ⟨hlt, by rw [hs2]; rfl⟩

theorem cycle_clear (m : GuardianState) (l : List Nat) (i : Nat) (loc loc' : Loc)
    (hloc : m.locs[i]? = some loc)
    (hloc' : (check_and_repair m l).2.1.locs[i]? = some loc') (hne : loc' ≠ loc) :
    (check_and_repair m l).2.2.getD i 0 = 0 := by
  rcases cycle_path m l with ⟨_, hq⟩ | ⟨_, _, _, hq⟩ | ⟨_, m', ⟨hlocs, _, _, _⟩, hq⟩
  · rw [hq] at hloc'
    rw [hloc] at hloc'
    injection hloc' with hloc'
    exact absurd hloc'.symm hne
  · rw [hq] at hloc'
    rw [hloc] at hloc'
    injection hloc' with hloc'
    exact absurd hloc'.symm hne
  · rw [hq] at hloc' ⊢
    rcases repairPhase_path m' l with ⟨_, h2, h3⟩ | ⟨d, c, n, _, _, hlocs', hled, _⟩
    · rw [h2, hlocs] at hloc'
      rw [hloc] at hloc'
      injection hloc' with hloc'
      exact absurd hloc'.symm hne
    · have hml : m'.locs[i]? = some loc := by rw [hlocs]; exact hloc
      obtain ⟨hg1, hg2⟩ := repairLoop_get validate_binary_redundant d c m'.locs l i loc hml
      rw [hlocs', hg1] at hloc'
      injection hloc' with hloc'
      have hch : (locStep validate_binary_redundant d c loc (l.getD i 0)).1 ≠ loc := by
        rw [hloc']
        exact hne
      obtain ⟨hz, _⟩ := locStep_changed validate_binary_redundant d c loc (l.getD i 0) hch
      rw [hled, List.getD_eq_getElem?_getD, hg2, hz]
      rfl

theorem run_frozen (fuel : Nat) :
    ∀ (m : GuardianState) (l : List Nat) (i : Nat) (loc : Loc),
      m.locs[i]? = some loc → loc.writable = false →
      (run_service fuel m l).2.1.locs[i]? = some loc := by
  induction fuel with
  | zero => intro m l i loc hloc _; exact hloc
  | succ k ih =>
    intro m l i loc hloc hw
    by_cases hstop : (check_and_repair m l).1 = .error .memoryCorruption
        ∨ 3 ≤ (check_and_repair m l).2.1.keeperState
    · rw [run_service_stop k m l hstop]
      exact (cycle_frozen m l i loc hloc hw).1
    · rw [run_service_go k m l hstop]
      exact ih _ _ i loc (cycle_frozen m l i loc hloc hw).1 hw

end ToyotaKeeper

namespace SpacexKeeper

open Keeper

theorem cycle_ledger_leS (m : GuardianState) (l : List Nat) (i : Nat)
    (h : l.getD i 0 ≤ MAX_REPAIR_ATTEMPTS) :
    (check_and_repair m l).2.2.getD i 0 ≤ MAX_REPAIR_ATTEMPTS := by
  rcases cycle_pathS m l with ⟨_, hq⟩ | ⟨_, hq⟩
  · rw [hq]; exact h
  · rw [hq]
    rcases repairPhase_pathS m l with ⟨_, _, h2⟩ | ⟨d, c, _, _, _, hled, _⟩
    · rw [h2]; exact h
    · rw [hled]
      exact repairLoop_ledger_le _ _ _ _ _ _ h

theorem run_ledger_leS (fuel : Nat) :
    ∀ (m : GuardianState) (l : List Nat) (i : Nat), l.getD i 0 ≤ MAX_REPAIR_ATTEMPTS →
      (run_service fuel m l).2.2.getD i 0 ≤ MAX_REPAIR_ATTEMPTS := by
  induction fuel with
  | zero => intro m l i h; exact h
  | succ k ih =>
    intro m l i h
    rw [run_service_succ k m l]
    exact ih _ _ i (cycle_ledger_leS m l i h)

theorem cycle_skipS (m : GuardianState) (l : List Nat) (i : Nat) (loc : Loc)
    (hloc : m.locs[i]? = some loc) (ha : MAX_REPAIR_ATTEMPTS ≤ l.getD i 0) :
    (check_and_repair m l).2.1.locs[i]? = some loc ∧
    (check_and_repair m l).2.2.getD i 0 = l.getD i 0 := by
  rcases cycle_pathS m l with ⟨_, hq⟩ | ⟨_, hq⟩
  · rw [hq]; exact ⟨hloc, rfl⟩
  · rw [hq]
    rcases repairPhase_pathS m l with ⟨_, h2, h3⟩ | ⟨d, c, _, _, hlocs', hled, _⟩
    · rw [h2, h3]
      exact ⟨hloc, rfl⟩
    · obtain ⟨hg1, hg2⟩ := repairLoop_get validate_binary d c m.locs l i loc hloc
      constructor
      · rw [hlocs', hg1, locStep_skip _ _ _ _ _ ha]
      · rw [hled, List.getD_eq_getElem?_getD, hg2, locStep_skip _ _ _ _ _ ha]
        rfl

theorem cycle_frozenS (m : GuardianState) (l : List Nat) (i : Nat) (loc : Loc)
    (hloc : m.locs[i]? = some loc) (hw : loc.writable = false) :
    (check_and_repair m l).2.1.locs[i]? = some loc ∧
    ((check_and_repair m l).2.2.getD i 0 = l.getD i 0 ∨
      (l.getD i 0 < MAX_REPAIR_ATTEMPTS ∧
        (check_and_repair m l).2.2.getD i 0 = l.getD i 0 + 1)) := by
  rcases cycle_pathS m l with ⟨_, hq⟩ | ⟨_, hq⟩
  · rw [hq]; exact ⟨hloc, Or.inl rfl⟩
  · rw [hq]
    rcases repairPhase_pathS m l with ⟨_, h2, h3⟩ | ⟨d, c, _, _, hlocs', hled, _⟩
    · rw [h2, h3]
      exact ⟨hloc, Or.inl rfl⟩
    · obtain ⟨hg1, hg2⟩ := repairLoop_get validate_binary d c m.locs l i loc hloc
      obtain ⟨hs1, hs2⟩ := locStep_frozen validate_binary d c loc (l.getD i 0) hw
      constructor
      · rw [hlocs', hg1, hs1]
      · rw [hled, List.getD_eq_getElem?_getD, hg2]
        rcases hs2 with hs2 | ⟨hlt, hs2⟩
        · exact Or.inl (by rw [hs2]; rfl)
        · exact Or.inr ⟨hlt, by rw [hs2]; rfl⟩

theorem cycle_clearS (m : GuardianState) (l : List Nat) (i : Nat) (loc loc' : Loc)
    (hloc : m.locs[i]? = some loc)
    (hloc' : (check_and_repair m l).2.1.locs[i]? = some loc') (hne : loc' ≠ loc) :
    (check_and_repair m l).2.2.getD i 0 = 0 := by
  rcases cycle_pathS m l with ⟨_, hq⟩ | ⟨_, hq⟩
  · rw [hq] at hloc'
    rw [hloc] at hloc'
    injection hloc' with hloc'
    exact absurd hloc'.symm hne
  · rw [hq] at hloc' ⊢
    rcases repairPhase_pathS m l with ⟨_, h2, h3⟩ | ⟨d, c, _, _, hlocs', hled, _⟩
    · rw [h2] at hloc'
      rw [h3]
      rw [hloc] at hloc'
      injection hloc' with hloc'
      exact absurd hloc'.symm hne
    · obtain ⟨hg1, hg2⟩ := repairLoop_get validate_binary d c m.locs l i loc hloc
      rw [hlocs', hg1] at hloc'
      injection hloc' with hloc'
      have hch : (locStep validate_binary d c loc (l.getD i 0)).1 ≠ loc := by
        rw [hloc']
        exact hne
      obtain ⟨hz, _⟩ := locStep_changed validate_binary d c loc (l.getD i 0) hch
      rw [hled, List.getD_eq_getElem?_getD, hg2, hz]
      rfl

theorem run_frozenS (fuel : Nat) :
    ∀ (m : GuardianState) (l : List Nat) (i : Nat) (loc : Loc),
      m.locs[i]? = some loc → loc.writable = false →
      (run_service fuel m l).2.1.locs[i]? = some loc := by
  induction fuel with
  | zero => intro m l i loc hloc _; exact hloc
  | succ k ih =>
    intro m l i loc hloc hw
    rw [run_service_succ k m l]
    exact ih _ _ i loc (cycle_frozenS m l i loc hloc hw).1 hw

end SpacexKeeper

namespace Keeper

/-- C6: the circuit breaker, for both variants.  For a location i of
the scan list: (a) a ledger entry at or above MAX_REPAIR_ATTEMPTS
makes every cycle skip the location — its file and its ledger entry
are untouched; (b) a location whose atomic write always fails is
never modified, and each cycle leaves its ledger entry unchanged (not
attempted) or increments it by one (a failed attempt), increments
happening only below the threshold — so over any whole run the entry,
starting at 0 (no entry), never exceeds MAX_REPAIR_ATTEMPTS = 3 and
the location is attempted at most 3 times; (c) a successful repair
(the location's state changed) removes the ledger entry (sets it to
0); (d) the file of an unwritable location is unchanged over any
whole service run. -/
theorem c6_circuit_breaker :
    ∀ (m : GuardianState) (l : List Nat) (i : Nat) (loc : Loc), m.locs[i]? = some loc →
      ((MAX_REPAIR_ATTEMPTS ≤ l.getD i 0 →
        ((ToyotaKeeper.check_and_repair m l).2.1.locs[i]? = some loc ∧
          (ToyotaKeeper.check_and_repair m l).2.2.getD i 0 = l.getD i 0) ∧
        ((SpacexKeeper.check_and_repair m l).2.1.locs[i]? = some loc ∧
          (SpacexKeeper.check_and_repair m l).2.2.getD i 0 = l.getD i 0)) ∧
      (loc.writable = false →
        ((ToyotaKeeper.check_and_repair m l).2.1.locs[i]? = some loc ∧
          ((ToyotaKeeper.check_and_repair m l).2.2.getD i 0 = l.getD i 0 ∨
            (l.getD i 0 < MAX_REPAIR_ATTEMPTS ∧
              (ToyotaKeeper.check_and_repair m l).2.2.getD i 0 = l.getD i 0 + 1))) ∧
        ((SpacexKeeper.check_and_repair m l).2.1.locs[i]? = some loc ∧
          ((SpacexKeeper.check_and_repair m l).2.2.getD i 0 = l.getD i 0 ∨
            (l.getD i 0 < MAX_REPAIR_ATTEMPTS ∧
              (SpacexKeeper.check_and_repair m l).2.2.getD i 0 = l.getD i 0 + 1)))) ∧
      (∀ loc', (ToyotaKeeper.check_and_repair m l).2.1.locs[i]? = some loc' → loc' ≠ loc →
        (ToyotaKeeper.check_and_repair m l).2.2.getD i 0 = 0) ∧
      (∀ loc', (SpacexKeeper.check_and_repair m l).2.1.locs[i]? = some loc' → loc' ≠ loc →
        (SpacexKeeper.check_and_repair m l).2.2.getD i 0 = 0) ∧
      (l.getD i 0 ≤ MAX_REPAIR_ATTEMPTS → ∀ fuel,
        (ToyotaKeeper.run_service fuel m l).2.2.getD i 0 ≤ MAX_REPAIR_ATTEMPTS ∧
        (SpacexKeeper.run_service fuel m l).2.2.getD i 0 ≤ MAX_REPAIR_ATTEMPTS) ∧
      (loc.writable = false → ∀ fuel,
        (ToyotaKeeper.run_service fuel m l).2.1.locs[i]? = some loc ∧
        (SpacexKeeper.run_service fuel m l).2.1.locs[i]? = some loc)) := by
  intro m l i loc hloc
  refine ⟨?_, ?_, ?_, ?_, ?_, ?_⟩
  · intro ha
    exact ⟨ToyotaKeeper.cycle_skip m l i loc hloc ha, SpacexKeeper.cycle_skipS m l i loc hloc ha⟩
  · intro hw
    exact ⟨ToyotaKeeper.cycle_frozen m l i loc hloc hw,
      SpacexKeeper.cycle_frozenS m l i loc hloc hw⟩
  · intro loc' hloc' hne
    exact ToyotaKeeper.cycle_clear m l i loc loc' hloc hloc' hne
  · intro loc' hloc' hne
    exact SpacexKeeper.cycle_clearS m l i loc loc' hloc hloc' hne
  · intro hle fuel
    exact ⟨ToyotaKeeper.run_ledger_le fuel m l i hle, SpacexKeeper.run_ledger_leS fuel m l i hle⟩
  · intro hw fuel
    exact ⟨ToyotaKeeper.run_frozen fuel m l i loc hloc hw,
      SpacexKeeper.run_frozenS fuel m l i loc hloc hw⟩

/-- C6 witness: the breaker facts applied to the concrete mStuck
scenario, whose fourth location (index 3) can never be written: over
a 4-tick run its file is untouched and every ledger entry stays at or
below the threshold, in both variants. -/
theorem c6_witness :
    (ToyotaKeeper.run_service 4 mStuck ledger5).2.1.locs[3]?
        = some ⟨some blobB, false, true⟩ ∧
    (SpacexKeeper.run_service 4 mStuck ledger5).2.1.locs[3]?
        = some ⟨some blobB, false, true⟩ ∧
    (ToyotaKeeper.run_service 4 mStuck ledger5).2.2.getD 3 0 ≤ MAX_REPAIR_ATTEMPTS ∧
    (SpacexKeeper.run_service 4 mStuck ledger5).2.2.getD 3 0 ≤ MAX_REPAIR_ATTEMPTS :=
  ⟨((c6_circuit_breaker mStuck ledger5 3 ⟨some blobB, false, true⟩ rfl).2.2.2.2.2
      rfl 4).1,
   ((c6_circuit_breaker mStuck ledger5 3 ⟨some blobB, false, true⟩ rfl).2.2.2.2.2
      rfl 4).2,
   ((c6_circuit_breaker mStuck ledger5 3 ⟨some blobB, false, true⟩ rfl).2.2.2.2.1
      (by decide) 4).1,
   ((c6_circuit_breaker mStuck ledger5 3 ⟨some blobB, false, true⟩ rfl).2.2.2.2.1
      (by decide) 4).2⟩

end Keeper

namespace Keeper

theorem needs_repair_false (v : Bytes → Bool) (c : Nat) (co : Option Bytes)
    (h : needs_repair v c co = false) : ∃ b, co = some b ∧ crc32 b = c ∧ v b = true := by
  cases co with
  | none => exact absurd h (by simp [needs_repair])
  | some b =>
    unfold needs_repair at h
    simp only [Bool.or_eq_false_iff, bne_eq_false_iff_eq, Bool.not_eq_false'] at h
    exact ⟨b, rfl, h.1, h.2⟩

end Keeper

namespace SpacexKeeper

open Keeper

theorem maxByCount_mem : ∀ (cs : List Cand) (x : Cand), maxByCount x cs ∈ x :: cs := by
  intro cs
  induction cs with
  | nil => intro x; simp [maxByCount]
  | cons y rest ih =>
    intro x
    unfold maxByCount
    by_cases hc : x.count ≤ y.count
    · rw [if_pos hc]
      exact List.mem_cons_of_mem _ (ih y)
    · rw [if_neg hc]
      rcases List.mem_cons.mp (ih x) with h | h
      · rw [h]
        exact List.mem_cons_self _ _
      · exact List.mem_cons_of_mem _ (List.mem_cons_of_mem _ h)

theorem find_source_propsS (reads : List (Option Bytes)) (d : Bytes) (c : Nat)
    (h : find_source_binary reads = .ok (d, c)) :
    validate_binary d = true ∧ crc32 d = c ∧ d ∈ valids validate_binary reads := by
  unfold find_source_binary at h
  cases hscan : scanSpacex reads with
  | nil => rw [hscan] at h; exact absurd h (by simp)
  | cons x rest =>
    rw [hscan] at h
    dsimp only at h
    injection h with h
    have hd : (maxByCount x rest).data = d := congrArg Prod.fst h
    have hk : (maxByCount x rest).key = c := congrArg Prod.snd h
    have hmem : maxByCount x rest ∈ scanSpacex reads := by
      rw [hscan]
      exact maxByCount_mem rest x
    obtain ⟨hnd, hch⟩ := scanSpacex_inv reads
    have hl := mem_lookupKeyS _ hnd _ hmem
    have he := hch (maxByCount x rest).key
    rw [hl] at he
    obtain ⟨_, hh, _⟩ := he
    have hdg : (maxByCount x rest).data ∈ (valids validate_binary reads).filter
        (fun y => crc32 y == (maxByCount x rest).key) := by
      cases hfl : (valids validate_binary reads).filter
          (fun y => crc32 y == (maxByCount x rest).key) with
      | nil => rw [hfl] at hh; cases hh
      | cons a t =>
        rw [hfl] at hh
        simp only [List.head?_cons, Option.some.injEq] at hh
        rw [← hh]
        exact List.mem_cons_self a t
    have hdm := (List.mem_filter.mp hdg).1
    have hdc := (List.mem_filter.mp hdg).2
    refine ⟨?_, ?_, hd ▸ hdm⟩
    · rw [← hd]
      exact ToyotaKeeper.valids_valid validate_binary reads _ hdm
    · rw [← hd, ← hk]
      simpa using hdc

theorem cycle_repairedS (m : GuardianState) (l : List Nat) (r : Nat)
    (hok : (check_and_repair m l).1 = .ok r) :
    ∃ d c, find_source_binary (m.locs.map Loc.content) = .ok (d, c) ∧
      ∀ (i : Nat) (loc : Loc), m.locs[i]? = some loc → loc.parentOk = true →
        loc.writable = true → l.getD i 0 < MAX_REPAIR_ATTEMPTS →
        ∃ b, (check_and_repair m l).2.1.locs[i]? = some ⟨some b, loc.writable, loc.parentOk⟩ ∧
          validate_binary b = true ∧ crc32 b = c ∧ (b = d ∨ loc.content = some b) := by
  rcases cycle_pathS m l with ⟨_, hq⟩ | ⟨_, hq⟩
  · rw [hq] at hok
    exact absurd hok (by simp)
  · rw [hq] at hok ⊢
    rcases repairPhase_pathS m l with ⟨⟨e, he, _⟩, _, _⟩ | ⟨d, c, hfs, _, hlocs', _, _⟩
    · rw [he] at hok
      exact absurd hok (by simp)
    · obtain ⟨hvd, hcd, _⟩ := find_source_propsS _ _ _ hfs
      refine ⟨d, c, hfs, ?_⟩
      intro i loc hloc hp hw ha
      obtain ⟨co, w, p⟩ := loc
      obtain ⟨hg1, _⟩ := repairLoop_get validate_binary d c m.locs l i _ hloc
      rcases locStep_cases validate_binary d c ⟨co, w, p⟩ (l.getD i 0) with
        ⟨hr, he⟩ | ⟨_, _, _, _, he⟩ | ⟨_, _, _, hwf, he⟩
      · rcases hr with hr | hr | hr
        · omega
        · rw [hp] at hr
          cases hr
        · obtain ⟨b, hco, hbc, hbv⟩ := needs_repair_false validate_binary c co hr
          refine ⟨b, ?_, hbv, hbc, Or.inr hco⟩
          rw [hlocs', hg1, he, hco]
      · refine ⟨d, ?_, hvd, hcd, Or.inl rfl⟩
        rw [hlocs', hg1, he]
      · rw [hw] at hwf
        cases hwf

end SpacexKeeper

namespace ToyotaKeeper

open Keeper

theorem cycle_ks_of_ok (m : GuardianState) (l : List Nat) (r : Nat)
    (h : (check_and_repair m l).1 = .ok r) :
    (check_and_repair m l).2.1.keeperState ≤ 2 := by
  rcases cycle_path m l with ⟨_, hq⟩ | ⟨_, _, _, hq⟩ | ⟨_, m', _, hq⟩
  · rw [hq] at h
    exact absurd h (by simp)
  · rw [hq] at h
    exact absurd h (by simp)
  · rw [hq] at h ⊢
    rcases repairPhase_path m' l with ⟨⟨e, he, _⟩, _, _⟩ | ⟨d, c, n, _, _, _, _, _, _, _, hks⟩
    · rw [he] at h
      exact absurd h (by simp)
    · exact hks

theorem cycle_repaired (m : GuardianState) (l : List Nat) (r : Nat)
    (hok : (check_and_repair m l).1 = .ok r) :
    ∃ d c n, find_source_binary (m.locs.map Loc.content) = .ok (d, c, n) ∧
      ∀ (i : Nat) (loc : Loc), m.locs[i]? = some loc → loc.parentOk = true →
        loc.writable = true → l.getD i 0 < MAX_REPAIR_ATTEMPTS →
        ∃ b, (check_and_repair m l).2.1.locs[i]? = some ⟨some b, loc.writable, loc.parentOk⟩ ∧
          validate_binary_redundant b = true ∧ crc32 b = c ∧ (b = d ∨ loc.content = some b) := by
  rcases cycle_path m l with ⟨_, hq⟩ | ⟨_, _, _, hq⟩ | ⟨_, m', ⟨hlocs, _, _, _⟩, hq⟩
  · rw [hq] at hok
    exact absurd hok (by simp)
  · rw [hq] at hok
    exact absurd hok (by simp)
  · rw [hq] at hok ⊢
    rcases repairPhase_path m' l with ⟨⟨e, he, _⟩, _, _⟩ | ⟨d, c, n, hfs, _, hlocs', _, _⟩
    · rw [he] at hok
      exact absurd hok (by simp)
    · rw [hlocs] at hfs
      obtain ⟨hvd, hcd, _, _, _⟩ := find_source_props _ _ _ _ hfs
      refine ⟨d, c, n, hfs, ?_⟩
      intro i loc hloc hp hw ha
      obtain ⟨co, w, p⟩ := loc
      have hml : m'.locs[i]? = some ⟨co, w, p⟩ := by rw [hlocs]; exact hloc
      obtain ⟨hg1, _⟩ := repairLoop_get validate_binary_redundant d c m'.locs l i _ hml
      rcases locStep_cases validate_binary_redundant d c ⟨co, w, p⟩ (l.getD i 0) with
        ⟨hr, he⟩ | ⟨_, _, _, _, he⟩ | ⟨_, _, _, hwf, he⟩
      · rcases hr with hr | hr | hr
        · omega
        · rw [hp] at hr
          cases hr
        · obtain ⟨b, hco, hbc, hbv⟩ := needs_repair_false validate_binary_redundant c co hr
          refine ⟨b, ?_, hbv, hbc, Or.inr hco⟩
          rw [hlocs', hg1, he, hco]
      · refine ⟨d, ?_, hvd, hcd, Or.inl rfl⟩
        rw [hlocs', hg1, he]
      · rw [hw] at hwf
        cases hwf

end ToyotaKeeper

namespace Keeper

/-- C9: one-shot mode exit codes, both variants.  exit 0 holds
exactly when the cycle returned Ok; every cycle error (NoConsensus
included) exits 1; a Critical safety state at the end of the cycle
forces exit 1 (toyota; spacex has no safety state); and an exit of 0
means every repairable location (parent creatable, writable, breaker
not tripped) ends the cycle holding a validated payload carrying the
consensus CRC — i.e. the cycle found no unhealthy replicas or
successfully repaired all repairable ones. -/
theorem c9_exit_codes :
    ∀ (m : GuardianState) (l : List Nat),
      (ToyotaKeeper.one_shot_exit m l = 0 ↔ ∃ r, (ToyotaKeeper.check_and_repair m l).1 = .ok r) ∧
      (∀ e, (ToyotaKeeper.check_and_repair m l).1 = .error e →
        ToyotaKeeper.one_shot_exit m l = 1) ∧
      (3 ≤ (ToyotaKeeper.check_and_repair m l).2.1.keeperState →
        ToyotaKeeper.one_shot_exit m l = 1) ∧
      (ToyotaKeeper.one_shot_exit m l = 0 →
        ∃ d c n, ToyotaKeeper.find_source_binary (m.locs.map Loc.content) = .ok (d, c, n) ∧
          ∀ (i : Nat) (loc : Loc), m.locs[i]? = some loc → loc.parentOk = true →
            loc.writable = true → l.getD i 0 < MAX_REPAIR_ATTEMPTS →
            ∃ b, (ToyotaKeeper.check_and_repair m l).2.1.locs[i]?
                = some ⟨some b, loc.writable, loc.parentOk⟩ ∧
              validate_binary_redundant b = true ∧ crc32 b = c) ∧
      (SpacexKeeper.one_shot_exit m l = 0 ↔ ∃ r, (SpacexKeeper.check_and_repair m l).1 = .ok r) ∧
      (∀ e, (SpacexKeeper.check_and_repair m l).1 = .error e →
        SpacexKeeper.one_shot_exit m l = 1) ∧
      (SpacexKeeper.one_shot_exit m l = 0 →
        ∃ d c, SpacexKeeper.find_source_binary (m.locs.map Loc.content) = .ok (d, c) ∧
          ∀ (i : Nat) (loc : Loc), m.locs[i]? = some loc → loc.parentOk = true →
            loc.writable = true → l.getD i 0 < MAX_REPAIR_ATTEMPTS →
            ∃ b, (SpacexKeeper.check_and_repair m l).2.1.locs[i]?
                = some ⟨some b, loc.writable, loc.parentOk⟩ ∧
              validate_binary b = true ∧ crc32 b = c) := by
  intro m l
  have hiffT : ToyotaKeeper.one_shot_exit m l = 0
      ↔ ∃ r, (ToyotaKeeper.check_and_repair m l).1 = .ok r := by
    unfold ToyotaKeeper.one_shot_exit
    cases h : (ToyotaKeeper.check_and_repair m l).1 <;> simp [h]
  have hiffS : SpacexKeeper.one_shot_exit m l = 0
      ↔ ∃ r, (SpacexKeeper.check_and_repair m l).1 = .ok r := by
    unfold SpacexKeeper.one_shot_exit
    cases h : (SpacexKeeper.check_and_repair m l).1 <;> simp [h]
  refine ⟨hiffT, ?_, ?_, ?_, hiffS, ?_, ?_⟩
  · intro e he
    unfold ToyotaKeeper.one_shot_exit
    rw [he]
  · intro hks
    by_cases hz : ToyotaKeeper.one_shot_exit m l = 0
    · obtain ⟨r, hr⟩ := hiffT.mp hz
      have := ToyotaKeeper.cycle_ks_of_ok m l r hr
      omega
    · unfold ToyotaKeeper.one_shot_exit at hz ⊢
      cases h : (ToyotaKeeper.check_and_repair m l).1
      · rfl
      · rw [h] at hz
        exact absurd rfl hz
  · intro hz
    obtain ⟨r, hr⟩ := hiffT.mp hz
    obtain ⟨d, c, n, hfs, hrep⟩ := ToyotaKeeper.cycle_repaired m l r hr
    exact ⟨d, c, n, hfs, fun i loc h1 h2 h3 h4 =>
      (hrep i loc h1 h2 h3 h4).imp fun b hb => ⟨hb.1, hb.2.1, hb.2.2.1⟩⟩
  · intro e he
    unfold SpacexKeeper.one_shot_exit
    rw [he]
  · intro hz
    obtain ⟨r, hr⟩ := hiffS.mp hz
    obtain ⟨d, c, hfs, hrep⟩ := SpacexKeeper.cycle_repairedS m l r hr
    exact ⟨d, c, hfs, fun i loc h1 h2 h3 h4 =>
      (hrep i loc h1 h2 h3 h4).imp fun b hb => ⟨hb.1, hb.2.1, hb.2.2.1⟩⟩

/-- C9 witness: concrete scenarios — the repairable mRep machine
exits 0 in both variants; the clobbered-canary machine exits 1 in
both variants (toyota ending Critical). -/
theorem c9_witness :
    ToyotaKeeper.one_shot_exit mRep ledger5 = 0 ∧
    SpacexKeeper.one_shot_exit mRep ledger5 = 0 ∧
    ToyotaKeeper.one_shot_exit mBadCanary [] = 1 ∧
    SpacexKeeper.one_shot_exit mBadCanary [] = 1 :=
  ⟨(c9_exit_codes mRep ledger5).1.mpr ⟨2, by decide⟩,
   (c9_exit_codes mRep ledger5).2.2.2.2.1.mpr ⟨2, by decide⟩,
   (c9_exit_codes mBadCanary []).2.1 .memoryCorruption (by decide),
   (c9_exit_codes mBadCanary []).2.2.2.2.2.1 .memoryCorruption (by decide)⟩

end Keeper

namespace Keeper

theorem getElem?_mem {α : Type u} (l : List α) (i : Nat) (a : α) (h : l[i]? = some a) :
    a ∈ l := by
  obtain ⟨hl, he⟩ := List.getElem?_eq_some.mp h
  exact he ▸ List.getElem_mem hl

theorem getElem?_lt {α : Type u} (l : List α) (i : Nat) (a : α) (h : l[i]? = some a) :
    i < l.length :=
  (List.getElem?_eq_some.mp h).1

theorem mem_getElem? {α : Type u} (l : List α) (a : α) (h : a ∈ l) :
    ∃ i : Nat, l[i]? = some a := by
  obtain ⟨i, hi, he⟩ := List.mem_iff_getElem.mp h
  exact ⟨i, by rw [List.getElem?_eq_getElem hi, he]⟩

theorem locStep_noneed (v : Bytes → Bool) (s : Bytes) (c : Nat) (loc : Loc) (a : Nat)
    (h : needs_repair v c loc.content = false) : locStep v s c loc a = (loc, a, 0, 0) := by
  rcases locStep_cases v s c loc a with ⟨_, he⟩ | ⟨_, _, hn, _, _⟩ | ⟨_, _, hn, _, _⟩
  · exact he
  · rw [h] at hn
    cases hn
  · rw [h] at hn
    cases hn

theorem repairLoop_id (v : Bytes → Bool) (s : Bytes) (c : Nat) :
    ∀ (locs : List Loc) (ledger : List Nat),
      (∀ loc ∈ locs, needs_repair v c loc.content = false) →
      ledger.length = locs.length →
      repairLoop v s c locs ledger = (locs, ledger, 0, 0) := by
  intro locs
  induction locs with
  | nil =>
    intro ledger _ hlen
    cases ledger with
    | nil => rfl
    | cons a t => cases hlen
  | cons loc rest ih =>
    intro ledger hall hlen
    cases ledger with
    | nil => cases hlen
    | cons a t =>
      unfold repairLoop
      have h1 : locStep v s c loc ((a :: t).headD 0) = (loc, a, 0, 0) :=
        locStep_noneed v s c loc a (hall loc (by simp))
      have h2 : repairLoop v s c rest t = (rest, t, 0, 0) := by
        apply ih t (fun e he => hall e (List.mem_cons_of_mem _ he))
        simpa using hlen
      simp only [List.tail_cons]
      rw [h1, h2]
      rfl

end Keeper

namespace ToyotaKeeper

open Keeper

theorem cycle_disk (m : GuardianState) (l : List Nat) :
    (check_and_repair m l).2.1.diskAvail = m.diskAvail := by
  rcases cycle_path m l with ⟨_, hq⟩ | ⟨_, _, _, hq⟩ | ⟨_, m', ⟨_, _, hd, _⟩, hq⟩
  · rw [hq]
  · rw [hq]
  · rw [hq]
    rcases repairPhase_path m' l with ⟨_, h2, _⟩ | ⟨d, c, n, _, _, _, _, _, _, hdisk, _⟩
    · rw [h2, hd]
    · rw [hdisk, hd]

theorem cycle_lengths_of_ok (m : GuardianState) (l : List Nat) (r : Nat)
    (h : (check_and_repair m l).1 = .ok r) :
    (check_and_repair m l).2.1.locs.length = m.locs.length ∧
    (check_and_repair m l).2.2.length = m.locs.length := by
  rcases cycle_path m l with ⟨_, hq⟩ | ⟨_, _, _, hq⟩ | ⟨_, m', ⟨hlocs, _, _, _⟩, hq⟩
  · rw [hq] at h
    exact absurd h (by simp)
  · rw [hq] at h
    exact absurd h (by simp)
  · rw [hq] at h ⊢
    rcases repairPhase_path m' l with ⟨⟨e, he, _⟩, _, _⟩ | ⟨d, c, n, _, _, hlocs', hled, _⟩
    · rw [he] at h
      exact absurd h (by simp)
    · rw [hlocs', hled, (repairLoop_length _ _ _ _ _).1, (repairLoop_length _ _ _ _ _).2,
        hlocs]
      exact ⟨rfl, rfl⟩

theorem preflight_ok_inv (m : GuardianState) (h : preflight_check m = .ok ()) :
    m.canary = MEMORY_CANARY ∧ diskLow m 100 = none ∧ m.repairCounter ≤ REPAIR_LIMIT := by
  unfold preflight_check at h
  by_cases hc : m.canary ≠ MEMORY_CANARY
  · rw [if_pos hc] at h
    cases h
  · push_neg at hc
    rw [if_neg (by push_neg; exact hc)] at h
    cases hd : diskLow m 100 with
    | some a =>
      rw [hd] at h
      cases h
    | none =>
      rw [hd] at h
      by_cases hr : REPAIR_LIMIT < m.repairCounter
      · rw [if_pos hr] at h
        cases h
      · exact ⟨hc, rfl, by omega⟩

theorem preflight_ok_intro (m : GuardianState) (hc : m.canary = MEMORY_CANARY)
    (hd : diskLow m 100 = none) (hr : m.repairCounter ≤ REPAIR_LIMIT) :
    preflight_check m = .ok () := by
  unfold preflight_check
  rw [if_neg (by push_neg; exact hc), hd, if_neg (by omega)]

theorem scan_uniform_aux (d : Bytes) (hv : validate_binary_redundant d = true) :
    ∀ (reads : List (Option Bytes)) (fls : List Nat) (k : Nat),
      (∀ r ∈ reads, r = some d) →
      reads.foldl
        (fun cs r =>
          match r with
          | some x =>
            if validate_binary_redundant x then insertCand (crc32 x) x (fletcher32 x) cs else cs
          | none => cs)
        [⟨crc32 d, d, fls, k⟩]
      = [⟨crc32 d, d, fls ++ reads.map (fun _ => fletcher32 d), k + reads.length⟩] := by
  intro reads
  induction reads with
  | nil => intro fls k _; simp
  | cons r rest ih =>
    intro fls k hall
    have hr : r = some d := hall r (by simp)
    subst hr
    rw [List.foldl_cons]
    have hstep : (if validate_binary_redundant d
        then insertCand (crc32 d) d (fletcher32 d) [⟨crc32 d, d, fls, k⟩]
        else [⟨crc32 d, d, fls, k⟩])
        = [⟨crc32 d, d, fls ++ [fletcher32 d], k + 1⟩] := by
      rw [if_pos hv]
      simp [insertCand]
    show List.foldl _ (if validate_binary_redundant d
        then insertCand (crc32 d) d (fletcher32 d) [⟨crc32 d, d, fls, k⟩]
        else [⟨crc32 d, d, fls, k⟩]) rest = _
    rw [hstep, ih (fls ++ [fletcher32 d]) (k + 1) (fun x hx => hall x (List.mem_cons_of_mem _ hx))]
    simp [List.append_assoc]
    omega

theorem scan_uniform (reads : List (Option Bytes)) (d : Bytes)
    (hall : ∀ r ∈ reads, r = some d) (hv : validate_binary_redundant d = true)
    (hne : reads ≠ []) :
    scanToyota reads
      = [⟨crc32 d, d, reads.map (fun _ => fletcher32 d), reads.length⟩] := by
  cases reads with
  | nil => exact absurd rfl hne
  | cons r rest =>
    have hr : r = some d := hall r (by simp)
    subst hr
    unfold scanToyota
    rw [List.foldl_cons]
    have hstep : (if validate_binary_redundant d
        then insertCand (crc32 d) d (fletcher32 d) []
        else ([] : List Cand)) = [⟨crc32 d, d, [fletcher32 d], 1⟩] := by
      rw [if_pos hv]
      rfl
    show List.foldl _ (if validate_binary_redundant d
        then insertCand (crc32 d) d (fletcher32 d) []
        else ([] : List Cand)) rest = _
    rw [hstep, scan_uniform_aux d hv rest [fletcher32 d] 1
      (fun x hx => hall x (List.mem_cons_of_mem _ hx))]
    simp [Nat.add_comm]

theorem find_source_uniform (reads : List (Option Bytes)) (d : Bytes)
    (hall : ∀ r ∈ reads, r = some d) (hv : validate_binary_redundant d = true)
    (hlen : CONSENSUS_THRESHOLD ≤ reads.length) :
    find_source_binary reads = .ok (d, crc32 d, reads.length) := by
  have hne : reads ≠ [] := by
    intro hx
    rw [hx] at hlen
    exact absurd hlen (by decide)
  have hscan := scan_uniform reads d hall hv hne
  unfold find_source_binary
  dsimp only
  rw [hscan]
  rw [if_neg (by simp)]
  have hch : chainEq (reads.map fun _ => fletcher32 d) = true := by
    apply chainEq_of_all _ (fletcher32 d)
    intro a ha
    obtain ⟨y, _, hy⟩ := List.mem_map.mp ha
    exact hy.symm
  have hsel : selectBest [⟨crc32 d, d, reads.map (fun _ => fletcher32 d), reads.length⟩] none 0
      = some (d, crc32 d, reads.length) := by
    apply selectBest_picks _ ⟨crc32 d, d, reads.map (fun _ => fletcher32 d), reads.length⟩
        (by simp) hch hlen ?_ none 0 ?_
    · intro e' he'
      rw [List.mem_singleton] at he'
      exact Or.inl he'
    · show 0 < reads.length
      have h3 := hlen
      unfold CONSENSUS_THRESHOLD at h3
      omega
  rw [hsel]

end ToyotaKeeper

namespace SpacexKeeper

open Keeper

theorem cycle_diskS (m : GuardianState) (l : List Nat) :
    (check_and_repair m l).2.1.diskAvail = m.diskAvail := by
  rcases cycle_pathS m l with ⟨_, hq⟩ | ⟨_, hq⟩
  · rw [hq]
  · rw [hq]
    rcases repairPhase_pathS m l with ⟨_, h2, _⟩ | ⟨d, c, _, _, _, _, _, _, hdisk, _⟩
    · rw [h2]
    · rw [hdisk]

theorem cycle_lengths_of_okS (m : GuardianState) (l : List Nat) (r : Nat)
    (h : (check_and_repair m l).1 = .ok r) :
    (check_and_repair m l).2.1.locs.length = m.locs.length ∧
    (check_and_repair m l).2.2.length = m.locs.length := by
  rcases cycle_pathS m l with ⟨_, hq⟩ | ⟨_, hq⟩
  · rw [hq] at h
    exact absurd h (by simp)
  · rw [hq] at h ⊢
    rcases repairPhase_pathS m l with ⟨⟨e, he, _⟩, _, _⟩ | ⟨d, c, _, _, hlocs', hled, _⟩
    · rw [he] at h
      exact absurd h (by simp)
    · rw [hlocs', hled, (repairLoop_length _ _ _ _ _).1, (repairLoop_length _ _ _ _ _).2]
      exact ⟨rfl, rfl⟩

theorem preflight_ok_introS (m : GuardianState) (hc : m.canary = MEMORY_CANARY)
    (hd : diskLow m 50 = none) : preflight_check m = .ok () := by
  unfold preflight_check
  rw [if_neg (by push_neg; exact hc), hd]

theorem scan_uniform_auxS (d : Bytes) (hv : validate_binary d = true) :
    ∀ (reads : List (Option Bytes)) (k : Nat),
      (∀ r ∈ reads, r = some d) →
      reads.foldl
        (fun cs r =>
          match r with
          | some x => if validate_binary x then insertCand (crc32 x) x cs else cs
          | none => cs)
        [⟨crc32 d, d, k⟩]
      = [⟨crc32 d, d, k + reads.length⟩] := by
  intro reads
  induction reads with
  | nil => intro k _; simp
  | cons r rest ih =>
    intro k hall
    have hr : r = some d := hall r (by simp)
    subst hr
    rw [List.foldl_cons]
    have hstep : (if validate_binary d
        then insertCand (crc32 d) d [⟨crc32 d, d, k⟩]
        else [⟨crc32 d, d, k⟩]) = [⟨crc32 d, d, k + 1⟩] := by
      rw [if_pos hv]
      simp [insertCand]
    show List.foldl _ (if validate_binary d
        then insertCand (crc32 d) d [⟨crc32 d, d, k⟩]
        else [⟨crc32 d, d, k⟩]) rest = _
    rw [hstep, ih (k + 1) (fun x hx => hall x (List.mem_cons_of_mem _ hx))]
    simp
    omega

theorem scan_uniformS (reads : List (Option Bytes)) (d : Bytes)
    (hall : ∀ r ∈ reads, r = some d) (hv : validate_binary d = true)
    (hne : reads ≠ []) :
    scanSpacex reads = [⟨crc32 d, d, reads.length⟩] := by
  cases reads with
  | nil => exact absurd rfl hne
  | cons r rest =>
    have hr : r = some d := hall r (by simp)
    subst hr
    unfold scanSpacex
    rw [List.foldl_cons]
    have hstep : (if validate_binary d
        then insertCand (crc32 d) d []
        else ([] : List Cand)) = [⟨crc32 d, d, 1⟩] := by
      rw [if_pos hv]
      rfl
    show List.foldl _ (if validate_binary d
        then insertCand (crc32 d) d []
        else ([] : List Cand)) rest = _
    rw [hstep, scan_uniform_auxS d hv rest 1 (fun x hx => hall x (List.mem_cons_of_mem _ hx))]
    simp [Nat.add_comm]

theorem find_source_uniformS (reads : List (Option Bytes)) (d : Bytes)
    (hall : ∀ r ∈ reads, r = some d) (hv : validate_binary d = true)
    (hne : reads ≠ []) :
    find_source_binary reads = .ok (d, crc32 d) := by
  have hscan := scan_uniformS reads d hall hv hne
  unfold find_source_binary
  rw [hscan]
  rfl

end SpacexKeeper

namespace ToyotaKeeper

theorem cycle_of_preflight_ok (m : Keeper.GuardianState) (l : List Nat)
    (h : preflight_check m = .ok ()) : check_and_repair m l = repairPhase m l := by
  unfold check_and_repair
  rw [h]

end ToyotaKeeper

namespace SpacexKeeper

theorem cycle_of_preflight_okS (m : Keeper.GuardianState) (l : List Nat)
    (h : preflight_check m = .ok ()) : check_and_repair m l = repairPhase m l := by
  unfold check_and_repair
  rw [h]

end SpacexKeeper

namespace Keeper

/-- C7: repair convergence.  After a cycle in which consensus was
found and every needed repair succeeded (every location writable with
parent available and breaker untripped, no CRC collision among the
observed contents, and the cumulative repair counter still below the
Jidoka limit for the toyota variant), running check_and_repair again
on the resulting state performs zero repairs and modifies neither the
locations nor the ledger, in both variants. -/
theorem c7_idempotent :
    (∀ (m : GuardianState) (l : List Nat) (r : Nat) (d : Bytes) (c n : Nat),
      l.length = m.locs.length →
      ToyotaKeeper.preflight_check m = .ok () →
      (ToyotaKeeper.check_and_repair m l).1 = .ok r →
      ToyotaKeeper.find_source_binary (m.locs.map Loc.content) = .ok (d, c, n) →
      (∀ loc ∈ m.locs, loc.parentOk = true ∧ loc.writable = true) →
      (∀ i, i < m.locs.length → l.getD i 0 < MAX_REPAIR_ATTEMPTS) →
      (∀ loc ∈ m.locs, ∀ b, loc.content = some b →
        validate_binary_redundant b = true → crc32 b = c → b = d) →
      (ToyotaKeeper.check_and_repair m l).2.1.repairCounter ≤ REPAIR_LIMIT →
      (ToyotaKeeper.check_and_repair (ToyotaKeeper.check_and_repair m l).2.1
          (ToyotaKeeper.check_and_repair m l).2.2).1 = .ok 0 ∧
      (ToyotaKeeper.check_and_repair (ToyotaKeeper.check_and_repair m l).2.1
          (ToyotaKeeper.check_and_repair m l).2.2).2.1.locs
        = (ToyotaKeeper.check_and_repair m l).2.1.locs ∧
      (ToyotaKeeper.check_and_repair (ToyotaKeeper.check_and_repair m l).2.1
          (ToyotaKeeper.check_and_repair m l).2.2).2.2
        = (ToyotaKeeper.check_and_repair m l).2.2) ∧
    (∀ (m : GuardianState) (l : List Nat) (r : Nat) (d : Bytes) (c : Nat),
      l.length = m.locs.length →
      SpacexKeeper.preflight_check m = .ok () →
      (SpacexKeeper.check_and_repair m l).1 = .ok r →
      SpacexKeeper.find_source_binary (m.locs.map Loc.content) = .ok (d, c) →
      (∀ loc ∈ m.locs, loc.parentOk = true ∧ loc.writable = true) →
      (∀ i, i < m.locs.length → l.getD i 0 < MAX_REPAIR_ATTEMPTS) →
      (∀ loc ∈ m.locs, ∀ b, loc.content = some b →
        validate_binary b = true → crc32 b = c → b = d) →
      (SpacexKeeper.check_and_repair (SpacexKeeper.check_and_repair m l).2.1
          (SpacexKeeper.check_and_repair m l).2.2).1 = .ok 0 ∧
      (SpacexKeeper.check_and_repair (SpacexKeeper.check_and_repair m l).2.1
          (SpacexKeeper.check_and_repair m l).2.2).2.1.locs
        = (SpacexKeeper.check_and_repair m l).2.1.locs ∧
      (SpacexKeeper.check_and_repair (SpacexKeeper.check_and_repair m l).2.1
          (SpacexKeeper.check_and_repair m l).2.2).2.2
        = (SpacexKeeper.check_and_repair m l).2.2) := by
  constructor
  · intro m l r d c n hlen hpre hok hfs hgood1 hgood2 hinj hrc
    obtain ⟨hvd, hcd, hn3, _, hnle⟩ := ToyotaKeeper.find_source_props _ _ _ _ hfs
    obtain ⟨d', c', n', hfs', hrep⟩ := ToyotaKeeper.cycle_repaired m l r hok
    have htr := hfs.symm.trans hfs'
    injection htr with htr
    rw [Prod.mk.injEq, Prod.mk.injEq] at htr
    obtain ⟨rfl, rfl, rfl⟩ := htr
    obtain ⟨hlen1, hlen2⟩ := ToyotaKeeper.cycle_lengths_of_ok m l r hok
    have hpost : ∀ (i : Nat) (loc' : Loc),
        (ToyotaKeeper.check_and_repair m l).2.1.locs[i]? = some loc' →
        loc'.content = some d := by
      intro i loc' hloc'
      have hi : i < (ToyotaKeeper.check_and_repair m l).2.1.locs.length :=
        getElem?_lt _ _ _ hloc'
      have hi' : i < m.locs.length := by omega
      obtain ⟨loc, hloc⟩ : ∃ loc, m.locs[i]? = some loc := by
        rw [List.getElem?_eq_getElem hi']
        exact ⟨_, rfl⟩
      have hpw := hgood1 loc (getElem?_mem _ _ _ hloc)
      obtain ⟨b, hb1, hb2, hb3, hb4⟩ := hrep i loc hloc hpw.1 hpw.2 (hgood2 i hi')
      rw [hloc'] at hb1
      injection hb1 with hb1
      have hbd : b = d := by
        rcases hb4 with rfl | hco
        · rfl
        · exact hinj loc (getElem?_mem _ _ _ hloc) b hco hb2 hb3
      subst hbd
      rw [hb1]
    have hall : ∀ rr ∈ (ToyotaKeeper.check_and_repair m l).2.1.locs.map Loc.content,
        rr = some d := by
      intro rr hrr
      obtain ⟨loc', hmem, rfl⟩ := List.mem_map.mp hrr
      obtain ⟨i, hi⟩ := mem_getElem? _ _ hmem
      exact hpost i loc' hi
    have hreadlen : CONSENSUS_THRESHOLD
        ≤ ((ToyotaKeeper.check_and_repair m l).2.1.locs.map Loc.content).length := by
      rw [List.length_map]
      have h1 : (valids validate_binary_redundant (m.locs.map Loc.content)).length
          ≤ (m.locs.map Loc.content).length :=
        le_trans (List.length_filter_le _ _) (List.length_filterMap_le _ _)
      rw [List.length_map] at h1
      omega
    have hfs2 := ToyotaKeeper.find_source_uniform _ d hall hvd hreadlen
    have hpre2 : ToyotaKeeper.preflight_check (ToyotaKeeper.check_and_repair m l).2.1
        = .ok () := by
      obtain ⟨hc1, hd1, _⟩ := ToyotaKeeper.preflight_ok_inv m hpre
      apply ToyotaKeeper.preflight_ok_intro
      · rw [ToyotaKeeper.cycle_canary m l]
        exact hc1
      · have : diskLow (ToyotaKeeper.check_and_repair m l).2.1 100 = diskLow m 100 := by
          unfold diskLow
          rw [ToyotaKeeper.cycle_disk m l]
        rw [this]
        exact hd1
      · exact hrc
    have hc2 : ToyotaKeeper.check_and_repair (ToyotaKeeper.check_and_repair m l).2.1
        (ToyotaKeeper.check_and_repair m l).2.2
        = ToyotaKeeper.repairPhase (ToyotaKeeper.check_and_repair m l).2.1
          (ToyotaKeeper.check_and_repair m l).2.2 :=
      ToyotaKeeper.cycle_of_preflight_ok _ _ hpre2
    have hneeds : ∀ loc ∈ (ToyotaKeeper.check_and_repair m l).2.1.locs,
        needs_repair validate_binary_redundant (crc32 d) loc.content = false := by
      intro loc hmem
      obtain ⟨i, hi⟩ := mem_getElem? _ _ hmem
      rw [hpost i loc hi]
      simp [needs_repair, hvd]
    have hlid := repairLoop_id validate_binary_redundant d (crc32 d)
      (ToyotaKeeper.check_and_repair m l).2.1.locs (ToyotaKeeper.check_and_repair m l).2.2
      hneeds (by omega)
    rw [hc2]
    rcases ToyotaKeeper.repairPhase_path (ToyotaKeeper.check_and_repair m l).2.1
        (ToyotaKeeper.check_and_repair m l).2.2 with
      ⟨⟨e, _, hef⟩, _, _⟩ | ⟨d2, c2, n2, hfs2', hres, hlocs', hled', _⟩
    · rw [hfs2] at hef
      cases hef
    · have htr2 := hfs2.symm.trans hfs2'
      injection htr2 with htr2
      rw [Prod.mk.injEq, Prod.mk.injEq] at htr2
      obtain ⟨rfl, rfl, rfl⟩ := htr2
      rw [hlid] at hres hlocs' hled'
      exact ⟨hres, hlocs', hled'⟩
  · intro m l r d c hlen hpre hok hfs hgood1 hgood2 hinj
    obtain ⟨hvd, hcd, _⟩ := SpacexKeeper.find_source_propsS _ _ _ hfs
    obtain ⟨d', c', hfs', hrep⟩ := SpacexKeeper.cycle_repairedS m l r hok
    have htr := hfs.symm.trans hfs'
    injection htr with htr
    rw [Prod.mk.injEq] at htr
    obtain ⟨rfl, rfl⟩ := htr
    obtain ⟨hlen1, hlen2⟩ := SpacexKeeper.cycle_lengths_of_okS m l r hok
    have hpost : ∀ (i : Nat) (loc' : Loc),
        (SpacexKeeper.check_and_repair m l).2.1.locs[i]? = some loc' →
        loc'.content = some d := by
      intro i loc' hloc'
      have hi : i < (SpacexKeeper.check_and_repair m l).2.1.locs.length :=
        getElem?_lt _ _ _ hloc'
      have hi' : i < m.locs.length := by omega
      obtain ⟨loc, hloc⟩ : ∃ loc, m.locs[i]? = some loc := by
        rw [List.getElem?_eq_getElem hi']
        exact ⟨_, rfl⟩
      have hpw := hgood1 loc (getElem?_mem _ _ _ hloc)
      obtain ⟨b, hb1, hb2, hb3, hb4⟩ := hrep i loc hloc hpw.1 hpw.2 (hgood2 i hi')
      rw [hloc'] at hb1
      injection hb1 with hb1
      have hbd : b = d := by
        rcases hb4 with rfl | hco
        · rfl
        · exact hinj loc (getElem?_mem _ _ _ hloc) b hco hb2 hb3
      subst hbd
      rw [hb1]
    have hall : ∀ rr ∈ (SpacexKeeper.check_and_repair m l).2.1.locs.map Loc.content,
        rr = some d := by
      intro rr hrr
      obtain ⟨loc', hmem, rfl⟩ := List.mem_map.mp hrr
      obtain ⟨i, hi⟩ := mem_getElem? _ _ hmem
      exact hpost i loc' hi
    have hne : (SpacexKeeper.check_and_repair m l).2.1.locs.map Loc.content ≠ [] := by
      intro hx
      have h1 := SpacexKeeper.find_source_propsS _ _ _ hfs
      obtain ⟨_, _, hdm⟩ := h1
      have : 1 ≤ (valids validate_binary (m.locs.map Loc.content)).length := by
        cases hv : valids validate_binary (m.locs.map Loc.content) with
        | nil => rw [hv] at hdm; cases hdm
        | cons a t => simp [hv]
      have h2 : (valids validate_binary (m.locs.map Loc.content)).length
          ≤ (m.locs.map Loc.content).length :=
        le_trans (List.length_filter_le _ _) (List.length_filterMap_le _ _)
      rw [List.length_map] at h2
      have h3 : ((SpacexKeeper.check_and_repair m l).2.1.locs.map Loc.content).length = 0 := by
        rw [hx]
        rfl
      rw [List.length_map] at h3
      omega
    have hfs2 := SpacexKeeper.find_source_uniformS _ d hall hvd hne
    have hpre2 : SpacexKeeper.preflight_check (SpacexKeeper.check_and_repair m l).2.1
        = .ok () := by
      have hc1 : m.canary = MEMORY_CANARY := by
        by_contra hx
        unfold SpacexKeeper.preflight_check at hpre
        rw [if_pos hx] at hpre
        cases hpre
      have hd1 : diskLow m 50 = none := by
        unfold SpacexKeeper.preflight_check at hpre
        rw [if_neg (by push_neg; exact hc1)] at hpre
        cases hd : diskLow m 50 with
        | some a => rw [hd] at hpre; cases hpre
        | none => rfl
      apply SpacexKeeper.preflight_ok_introS
      · rw [SpacexKeeper.cycle_canaryS m l]
        exact hc1
      · have : diskLow (SpacexKeeper.check_and_repair m l).2.1 50 = diskLow m 50 := by
          unfold diskLow
          rw [SpacexKeeper.cycle_diskS m l]
        rw [this]
        exact hd1
    have hc2 : SpacexKeeper.check_and_repair (SpacexKeeper.check_and_repair m l).2.1
        (SpacexKeeper.check_and_repair m l).2.2
        = SpacexKeeper.repairPhase (SpacexKeeper.check_and_repair m l).2.1
          (SpacexKeeper.check_and_repair m l).2.2 :=
      SpacexKeeper.cycle_of_preflight_okS _ _ hpre2
    have hneeds : ∀ loc ∈ (SpacexKeeper.check_and_repair m l).2.1.locs,
        needs_repair validate_binary (crc32 d) loc.content = false := by
      intro loc hmem
      obtain ⟨i, hi⟩ := mem_getElem? _ _ hmem
      rw [hpost i loc hi]
      simp [needs_repair, hvd]
    have hlid := repairLoop_id validate_binary d (crc32 d)
      (SpacexKeeper.check_and_repair m l).2.1.locs (SpacexKeeper.check_and_repair m l).2.2
      hneeds (by omega)
    rw [hc2]
    rcases SpacexKeeper.repairPhase_pathS (SpacexKeeper.check_and_repair m l).2.1
        (SpacexKeeper.check_and_repair m l).2.2 with
      ⟨⟨e, _, hef⟩, _, _⟩ | ⟨d2, c2, hfs2', hres, hlocs', hled', _⟩
    · rw [hfs2] at hef
      cases hef
    · have htr2 := hfs2.symm.trans hfs2'
      injection htr2 with htr2
      rw [Prod.mk.injEq] at htr2
      obtain ⟨rfl, rfl⟩ := htr2
      rw [hlid] at hres hlocs' hled'
      exact ⟨hres, hlocs', hled'⟩

end Keeper

namespace Keeper

/-- C7 witness: after one fully successful repair cycle on the mRep
scenario, the second cycle repairs nothing, in both variants. -/
theorem c7_witness :
    (ToyotaKeeper.check_and_repair (ToyotaKeeper.check_and_repair mRep ledger5).2.1
        (ToyotaKeeper.check_and_repair mRep ledger5).2.2).1 = .ok 0 ∧
    (SpacexKeeper.check_and_repair (SpacexKeeper.check_and_repair mRep ledger5).2.1
        (SpacexKeeper.check_and_repair mRep ledger5).2.2).1 = .ok 0 := by
  have hinjT : ∀ loc ∈ mRep.locs, ∀ b : Bytes, loc.content = some b →
      validate_binary_redundant b = true → crc32 b = crc32 blobA → b = blobA := by
    intro loc hmem b hco _ hcrc
    simp only [mRep, List.mem_cons, List.not_mem_nil, or_false] at hmem
    rcases hmem with rfl | rfl | rfl | rfl | rfl
    · injection hco with hco
      exact hco.symm
    · injection hco with hco
      exact hco.symm
    · injection hco with hco
      exact hco.symm
    · injection hco with hco
      subst hco
      exact absurd hcrc (by decide)
    · exact Option.noConfusion hco
  have hinjS : ∀ loc ∈ mRep.locs, ∀ b : Bytes, loc.content = some b →
      validate_binary b = true → crc32 b = crc32 blobA → b = blobA := by
    intro loc hmem b hco _ hcrc
    simp only [mRep, List.mem_cons, List.not_mem_nil, or_false] at hmem
    rcases hmem with rfl | rfl | rfl | rfl | rfl
    · injection hco with hco
      exact hco.symm
    · injection hco with hco
      exact hco.symm
    · injection hco with hco
      exact hco.symm
    · injection hco with hco
      subst hco
      exact absurd hcrc (by decide)
    · exact Option.noConfusion hco
  constructor
  · exact (c7_idempotent.1 mRep ledger5 2 blobA (crc32 blobA) 3 rfl (by decide) (by decide)
      (by decide) (by decide) (by decide) hinjT (by decide)).1
  · exact (c7_idempotent.2 mRep ledger5 2 blobA (crc32 blobA) rfl (by decide) (by decide)
      (by decide) (by decide) (by decide) hinjS).1

end Keeper
